import Mathlib

/-!
# glc: a tree-walking generator from Go syntax trees to C-like text

A shallow embedding of `glc.go`.  The program parses one file with `go/parser`
and walks `f.Decls`: `main` classifies the top-level declarations, prints the
global variables and the functions, `genBlock`/`genStmt` print statements and
`genExpr` prints expressions.  Unsupported constructs are reported through
`parseError`, which writes to the logger.

The program only ever appends to standard output and to the logger, so every
generator is embedded as a function from the syntax tree to an `Emit`: the text
appended to standard output, the entries appended to the logger, and whether
the run stopped there (a run-time panic, or `log.Fatalln`).  Sequencing of two
pieces of code is `a >> b`: when `a` stopped, `b` does not run.
-/

namespace Glc

/-! ## The parts of `go/token` and `go/ast` the program reads -/

/-- A position in the file set (`token.Pos`). -/
abbrev Pos := Nat

/-- The lexical tokens of `go/token`. -/
inductive Token
  | ILLEGAL | EOF | COMMENT
  | IDENT | INT | FLOAT | IMAG | CHAR | STRING
  | ADD | SUB | MUL | QUO | REM
  | AND | OR | XOR | SHL | SHR | AND_NOT
  | ADD_ASSIGN | SUB_ASSIGN | MUL_ASSIGN | QUO_ASSIGN | REM_ASSIGN
  | AND_ASSIGN | OR_ASSIGN | XOR_ASSIGN | SHL_ASSIGN | SHR_ASSIGN | AND_NOT_ASSIGN
  | LAND | LOR | ARROW | INC | DEC
  | EQL | LSS | GTR | ASSIGN | NOT
  | NEQ | LEQ | GEQ | DEFINE | ELLIPSIS
  | LPAREN | LBRACK | LBRACE | COMMA | PERIOD
  | RPAREN | RBRACK | RBRACE | SEMICOLON | COLON
  | BREAK | CASE | CHAN | CONST | CONTINUE
  | DEFAULT | DEFER | ELSE | FALLTHROUGH | FOR
  | FUNC | GO | GOTO | IF | IMPORT
  | INTERFACE | MAP | PACKAGE | RANGE | RETURN
  | SELECT | STRUCT | SWITCH | TYPE | VAR
deriving DecidableEq, Repr

/-- The text of a token, as `token.Token.String` gives it (what `%v` prints). -/
def Token.toString : Token → String
  | .ILLEGAL => "ILLEGAL" | .EOF => "EOF" | .COMMENT => "COMMENT"
  | .IDENT => "IDENT" | .INT => "INT" | .FLOAT => "FLOAT" | .IMAG => "IMAG"
  | .CHAR => "CHAR" | .STRING => "STRING"
  | .ADD => "+" | .SUB => "-" | .MUL => "*" | .QUO => "/" | .REM => "%"
  | .AND => "&" | .OR => "|" | .XOR => "^" | .SHL => "<<" | .SHR => ">>" | .AND_NOT => "&^"
  | .ADD_ASSIGN => "+=" | .SUB_ASSIGN => "-=" | .MUL_ASSIGN => "*=" | .QUO_ASSIGN => "/="
  | .REM_ASSIGN => "%=" | .AND_ASSIGN => "&=" | .OR_ASSIGN => "|=" | .XOR_ASSIGN => "^="
  | .SHL_ASSIGN => "<<=" | .SHR_ASSIGN => ">>=" | .AND_NOT_ASSIGN => "&^="
  | .LAND => "&&" | .LOR => "||" | .ARROW => "<-" | .INC => "++" | .DEC => "--"
  | .EQL => "==" | .LSS => "<" | .GTR => ">" | .ASSIGN => "=" | .NOT => "!"
  | .NEQ => "!=" | .LEQ => "<=" | .GEQ => ">=" | .DEFINE => ":=" | .ELLIPSIS => "..."
  | .LPAREN => "(" | .LBRACK => "[" | .LBRACE => "\x7b" | .COMMA => "," | .PERIOD => "."
  | .RPAREN => ")" | .RBRACK => "]" | .RBRACE => "\x7d" | .SEMICOLON => ";" | .COLON => ":"
  | .BREAK => "break" | .CASE => "case" | .CHAN => "chan" | .CONST => "const"
  | .CONTINUE => "continue" | .DEFAULT => "default" | .DEFER => "defer" | .ELSE => "else"
  | .FALLTHROUGH => "fallthrough" | .FOR => "for" | .FUNC => "func" | .GO => "go"
  | .GOTO => "goto" | .IF => "if" | .IMPORT => "import" | .INTERFACE => "interface"
  | .MAP => "map" | .PACKAGE => "package" | .RANGE => "range" | .RETURN => "return"
  | .SELECT => "select" | .STRUCT => "struct" | .SWITCH => "switch" | .TYPE => "type"
  | .VAR => "var"

/-- An identifier node (`ast.Ident`); `%s` prints its `Name`. -/
structure Ident where
  NamePos : Pos
  Name : String
deriving DecidableEq, Repr

/-- The expression nodes (`ast.Expr`).  `genExpr` tells four node types apart;
every other node type is `other`, which carries its position and the text
that `%#v` prints for it. -/
inductive Expr
  | BasicLit (ValuePos : Pos) (Kind : Token) (Value : String)
  | Ident (NamePos : Pos) (Name : String)
  | BinaryExpr (X : Expr) (Op : Token) (Y : Expr)
  | CallExpr (Fun : Expr) (Args : List Expr)
  | other (pos : Pos) (goRepr : String)

/-- The method `Pos()` of an expression node: where its first character is. -/
def Expr.pos : Expr → Pos
  | .BasicLit p _ _ => p
  | .Ident p _ => p
  | .BinaryExpr x _ _ => x.pos
  | .CallExpr f _ => f.pos
  | .other p _ => p

/-- The `Type` expression of a value spec or of a parameter field.  The program
either formats it with `%v` or asserts that it is an `*ast.Ident` and reads the
name; a node of any other type carries the text `%v` prints for it. -/
inductive TypeExpr
  | Ident (Name : String)
  | other (goValue : String)
deriving DecidableEq, Repr

/-- A variable or constant spec (`ast.ValueSpec`); `Typ` is `none` for a nil
`Type`. -/
structure ValueSpec where
  Names : List Ident
  Typ : Option TypeExpr
  Values : List Expr

/-- The specs of a generic declaration (`ast.Spec`). -/
inductive Spec
  | ImportSpec
  | ValueSpec (value : ValueSpec)
  | TypeSpec

/-- A generic declaration (`ast.GenDecl`): import, const, type or var. -/
structure GenDecl where
  TokPos : Pos
  Tok : Token
  Specs : List Spec

/-- One entry of a parameter or result list (`ast.Field`). -/
structure Field where
  Names : List Ident
  Typ : TypeExpr
deriving DecidableEq, Repr

mutual
/-- The statement nodes (`ast.Stmt`).  A block is the list of its statements;
`genStmt` tells six node types apart and every other one is `other`, which
carries the text `%#v` prints for it. -/
inductive Stmt
  | BlockStmt (list : List Stmt)
  | DeclStmt (Decl : Decl)
  | ExprStmt (X : Expr)
  | IfStmt (Cond : Expr) (Body : List Stmt) (Else : Option Stmt)
  | ReturnStmt (Return : Pos) (Results : List Expr)
  | AssignStmt (Lhs : List Expr) (Tok : Token) (Rhs : List Expr)
  | other (goRepr : String)
/-- The declaration nodes (`ast.Decl`). -/
inductive Decl
  | GenDecl (decl : GenDecl)
  | FuncDecl (decl : FuncDecl)
  | BadDecl
/-- A function declaration (`ast.FuncDecl`): `Params` is `Type.Params.List`,
`Results` is `none` for a nil `Type.Results` and `Body` is `none` for a nil
body (a function declared without one). -/
inductive FuncDecl
  | mk (Name : Ident) (Params : List Field) (Results : Option (List Field))
      (Body : Option (List Stmt))
end

/-- The name of the function. -/
def FuncDecl.Name : FuncDecl → Ident
  | .mk n _ _ _ => n

/-- The parameter fields of the function. -/
def FuncDecl.Params : FuncDecl → List Field
  | .mk _ p _ _ => p

/-- The result fields of the function, `none` when it declares none. -/
def FuncDecl.Results : FuncDecl → Option (List Field)
  | .mk _ _ r _ => r

/-- The statements of the body, `none` when the function has no body. -/
def FuncDecl.Body : FuncDecl → Option (List Stmt)
  | .mk _ _ _ b => b

/-! ## Effects: standard output, the logger, and stopping -/

/-- How a run stops early: `log.Fatalln` exits the process, a failed type
assertion, an index out of range or a nil dereference panics. -/
inductive Halt
  | exit
  | panicked
deriving DecidableEq, Repr

/-- What a piece of the program does: the text it appends to standard output,
the messages it hands to the logger (one entry per call, before the logger adds
its header), and whether the run stopped in it. -/
structure Emit where
  out : String
  log : List String
  halt : Option Halt
deriving DecidableEq, Repr

/-- Code that does nothing. -/
def Emit.skip : Emit := ⟨"", [], none⟩

/-- Run `a`, then `b` unless the run stopped in `a`. -/
def Emit.seq (a b : Emit) : Emit :=
  match a.halt with
  | some _ => a
  | none => ⟨a.out ++ b.out, a.log ++ b.log, b.halt⟩

instance : HAndThen Emit Emit Emit := ⟨fun a b => Emit.seq a (b ())⟩

/-- Writing the text `s` to standard output (`fmt.Print` and friends, after
formatting). -/
def fmtPrint (s : String) : Emit := ⟨s, [], none⟩

/-- Handing the message `s` to the logger (`log.Printf`, after formatting). -/
def logPrint (s : String) : Emit := ⟨"", [s], none⟩

/-- The call `log.Fatalln(s)`: the message with a newline, then `os.Exit(1)`. -/
def logFatalln (s : String) : Emit := ⟨"", [s ++ "\n"], some Halt.exit⟩

/-- A run-time panic. -/
def goPanic : Emit := ⟨"", [], some Halt.panicked⟩

/-- The loop `for _, x := range xs`, running `body x` for each element. -/
def Emit.forEach {α : Type} (body : α → Emit) : List α → Emit
  | [] => Emit.skip
  | x :: rest => body x >> Emit.forEach body rest

/-- The loop `for i := range xs` from index `i` on, running `body i xs[i]`. -/
def Emit.forRangeFrom {α : Type} (body : Nat → α → Emit) : Nat → List α → Emit
  | _, [] => Emit.skip
  | i, x :: rest => body i x >> Emit.forRangeFrom body (i + 1) rest

/-- The loop `for i := range xs`, running `body i xs[i]` for each index. -/
def Emit.forRange {α : Type} (xs : List α) (body : Nat → α → Emit) : Emit :=
  Emit.forRangeFrom body 0 xs

/-- What `%v` prints for the `Type` of a value spec: the name of an identifier
(through its `String` method), `<nil>` for a nil interface. -/
def fmtV : Option TypeExpr → String
  | none => "<nil>"
  | some (.Ident name) => name
  | some (.other text) => text

/-! ## The generator -/

/-- The generation context; `fset` is the file set, read only through
`c.fset.Position(p)` formatted with `%v`, so it is the map from a position to
that text. -/
structure context where
  fset : Pos → String

/-- The function `parseError(c, n, s)`, with `pos` the value of `n.Pos()`.
The format is `"%v: s"`: the position, then the characters `: s`, and `fmt`
appends the unused operand `s` as `%!(EXTRA string=...)`. -/
def parseError (c : context) (pos : Pos) (s : String) : Emit :=
  logPrint (c.fset pos ++ ": s" ++ "%!(EXTRA string=" ++ s ++ ")")

mutual
/-- The function `genExpr`. -/
def genExpr (c : context) : Expr → Emit
  | .BasicLit valuePos kind value =>
    match kind with
    | .INT | .FLOAT | .CHAR | .STRING => fmtPrint value
    | .IMAG => parseError c valuePos "complex numbers not currently supported"
    | _ => Emit.skip
  | .Ident _ name => fmtPrint name
  | .BinaryExpr x op y =>
    genExpr c x >> fmtPrint (" " ++ op.toString ++ " ") >> genExpr c y
  | .CallExpr f args =>
    genExpr c f >> fmtPrint "(" >> genArgs c args >> fmtPrint ")"
  | .other _ goRepr => logPrint (goRepr ++ "\n")
/-- The loop `for _, a := range e.Args` of `genExpr`. -/
def genArgs (c : context) : List Expr → Emit
  | [] => Emit.skip
  | a :: rest => genExpr c a >> genArgs c rest
end

/-- The statement
`fmt.Printf("%v %s = %s;\n", value.Type, value.Names[i], value.Values[i].(*ast.BasicLit).Value)`,
which `main` and `genStmt` both contain, with `name` the element
`value.Names[i]`: the index into `Values` and the type assertion can panic. -/
def printInitialized (value : ValueSpec) (i : Nat) (name : Ident) : Emit :=
  match value.Values[i]? with
  | some (.BasicLit _ _ lit) =>
    fmtPrint (fmtV value.Typ ++ " " ++ name.Name ++ " = " ++ lit ++ ";\n")
  | _ => goPanic

/-- The body of the loop over `gendecl.Specs` in the `token.VAR` case of
`genStmt`. -/
def genStmtSpec (c : context) (gendecl : GenDecl) : Spec → Emit
  | .ValueSpec value =>
    if value.Values.length = 0 then
      Emit.forRange value.Names fun _ name =>
        fmtPrint (fmtV value.Typ ++ " " ++ name.Name ++ ";\n")
    else if value.Values.length ≠ value.Names.length then
      parseError c gendecl.TokPos "assignment count mismatch"
    else
      Emit.forRange value.Names (printInitialized value)
  | _ => goPanic

mutual
/-- The function `genStmt`. -/
def genStmt (c : context) : Stmt → Emit
  | .BlockStmt list =>
    fmtPrint "\x7b\n" >> genBlock c list >> fmtPrint "\x7d\n"
  | .DeclStmt decl =>
    match decl with
    | .GenDecl gendecl =>
      match gendecl.Tok with
      | .CONST => parseError c gendecl.TokPos "const not currently supported"
      | .TYPE => parseError c gendecl.TokPos "local types not currently supported"
      | .VAR => Emit.forEach (genStmtSpec c gendecl) gendecl.Specs
      | _ => Emit.skip
    | _ => goPanic
  | .ExprStmt x => genExpr c x >> fmtPrint ";\n"
  | .IfStmt cond body els =>
    fmtPrint "if (" >> genExpr c cond >> fmtPrint ") \x7b\n" >> genBlock c body >>
      (match els with
       | some s => fmtPrint "\x7d else " >> genStmt c s
       | none => fmtPrint "\x7d\n")
  | .ReturnStmt ret results =>
    match results with
    | [] => fmtPrint "return;\n"
    | [e] => fmtPrint "return " >> genExpr c e >> fmtPrint ";\n"
    | _ => parseError c ret "multiple return values not currently supported"
  | .AssignStmt lhs _ rhs =>
    if lhs.length > 1 ∨ rhs.length > 1 then
      match lhs[0]? with
      | some l => parseError c l.pos "multiple assignment not currently supported"
      | none => goPanic
    else
      match lhs[0]? with
      | some l =>
        genExpr c l >> fmtPrint " = " >>
          (match rhs[0]? with
           | some r => genExpr c r >> fmtPrint ";\n"
           | none => goPanic)
      | none => goPanic
  | .other goRepr => fmtPrint (goRepr ++ "\n")
/-- The function `genBlock`, on the statement list of the block. -/
def genBlock (c : context) : List Stmt → Emit
  | [] => Emit.skip
  | stmt :: rest => genStmt c stmt >> genBlock c rest
end

/-- The five slices `main` sorts the top-level declarations into. -/
structure Classified where
  imports : List GenDecl
  consts : List GenDecl
  types : List GenDecl
  vars : List GenDecl
  funcs : List FuncDecl

/-- The loop `for _, d := range f.Decls` of `main`, started with the slices
`acc`; `none` when it reaches `log.Fatalln("unknown decl")`. -/
def classify : List Decl → Classified → Option Classified
  | [], acc => some acc
  | d :: rest, acc =>
    match d with
    | .GenDecl decl =>
      match decl.Tok with
      | .IMPORT => classify rest { acc with imports := acc.imports ++ [decl] }
      | .CONST => classify rest { acc with consts := acc.consts ++ [decl] }
      | .TYPE => classify rest { acc with types := acc.types ++ [decl] }
      | .VAR => classify rest { acc with vars := acc.vars ++ [decl] }
      | _ => classify rest acc
    | .FuncDecl decl => classify rest { acc with funcs := acc.funcs ++ [decl] }
    | .BadDecl => none

/-- The body of the loop over `v.Specs` in the variable part of `main`. -/
def mainSpec : Spec → Emit
  | .ValueSpec value => Emit.forRange value.Names (printInitialized value)
  | _ => goPanic

/-- The body of the loop `for _, v := range vars` of `main`. -/
def mainVar (v : GenDecl) : Emit :=
  Emit.forEach mainSpec v.Specs

/-- The loop over `f.Type.Params.List` of `main`: the parallel slices
`paramTypes` and `paramNames`, as the list of their pairs; `none` when a
parameter type is not an identifier (the type assertion panics). -/
def collectParams : List Field → Option (List (String × String))
  | [] => some []
  | p :: rest =>
    match p.Typ with
    | .Ident typ =>
      (collectParams rest).map fun more => p.Names.map (fun n => (typ, n.Name)) ++ more
    | _ => none

/-- The value of `returnType` after the loop over `f.Type.Results.List` of
`main`, which stops after the first field; `none` when the type assertion
panics. -/
def firstResult : Option (List Field) → Option String
  | none => some ""
  | some [] => some ""
  | some (p :: _) =>
    match p.Typ with
    | .Ident name => some name
    | _ => none

/-- The body of the loop `for _, f := range funcs` of `main`. -/
def mainFunc (c : context) (f : FuncDecl) : Emit :=
  match collectParams f.Params with
  | none => goPanic
  | some params =>
    match firstResult f.Results with
    | none => goPanic
    | some result =>
      let returnType := if result = "" then "void" else result
      fmtPrint (returnType ++ " " ++ f.Name.Name ++ "(") >>
      (Emit.forRange params fun i p =>
        let delim := if i ≠ 0 then "," else ""
        fmtPrint (p.1 ++ " " ++ p.2 ++ delim)) >>
      fmtPrint ") \x7b\n" >>
      (match f.Body with
       | some body => genBlock c body
       | none => goPanic) >>
      fmtPrint "\x7d\n"

/-- The function `main`, from the declarations `f.Decls` of the parsed file
on. -/
def main (c : context) (decls : List Decl) : Emit :=
  match classify decls ⟨[], [], [], [], []⟩ with
  | none => logFatalln "unknown decl"
  | some cl => Emit.forEach mainVar cl.vars >> Emit.forEach (mainFunc c) cl.funcs

/-! ## Notions the specification is stated with -/

/-- The generic declarations with token `tok` among `decls`, in source
order. -/
def genDecls (tok : Token) (decls : List Decl) : List GenDecl :=
  decls.filterMap fun d =>
    match d with
    | .GenDecl decl => if decl.Tok = tok then some decl else none
    | _ => none

/-- The function declarations among `decls`, in source order. -/
def funcDecls (decls : List Decl) : List FuncDecl :=
  decls.filterMap fun d =>
    match d with
    | .FuncDecl decl => some decl
    | _ => none

mutual
/-- The number of complex-number literals and of expression nodes of
unrecognized type in the expression tree `e`. -/
def Expr.recoverable : Expr → Nat
  | .BasicLit _ kind _ => if kind = Token.IMAG then 1 else 0
  | .Ident _ _ => 0
  | .BinaryExpr x _ y => x.recoverable + y.recoverable
  | .CallExpr f args => f.recoverable + Expr.recoverableList args
  | .other _ _ => 1
/-- The sum of `Expr.recoverable` over a list of expressions. -/
def Expr.recoverableList : List Expr → Nat
  | [] => 0
  | e :: rest => e.recoverable + Expr.recoverableList rest
end

/-- Whether a spec is a value spec whose initializer count is neither 0 nor
the number of names: 1 if so, 0 if not. -/
def Spec.mismatched : Spec → Nat
  | .ValueSpec value =>
    if value.Values.length ≠ 0 ∧ value.Values.length ≠ value.Names.length then 1 else 0
  | _ => 0

/-- The recoverable conditions in a var spec as the specification lists them:
the count mismatch, and the complex-number literals and unrecognized
expressions in its initializers. -/
def Spec.recoverable : Spec → Nat
  | .ValueSpec value => Spec.mismatched (.ValueSpec value) + Expr.recoverableList value.Values
  | _ => 0

mutual
/-- The number of occurrences of a recoverable condition anywhere in the
statement tree, as the specification lists them: local const and type
declarations, returns with two or more results, assignments with more than one
target or value, var specs with mismatched counts, complex-number literals,
unrecognized statement and expression variants. -/
def Stmt.recoverable : Stmt → Nat
  | .BlockStmt list => Stmt.recoverableList list
  | .DeclStmt (.GenDecl decl) =>
    match decl.Tok with
    | .CONST => 1
    | .TYPE => 1
    | .VAR => (decl.Specs.map Spec.recoverable).sum
    | _ => 0
  | .DeclStmt _ => 0
  | .ExprStmt x => x.recoverable
  | .IfStmt cond body els =>
    cond.recoverable + Stmt.recoverableList body +
      (match els with
       | some s => s.recoverable
       | none => 0)
  | .ReturnStmt _ results =>
    (if 2 ≤ results.length then 1 else 0) + Expr.recoverableList results
  | .AssignStmt lhs _ rhs =>
    (if 1 < lhs.length ∨ 1 < rhs.length then 1 else 0) +
      Expr.recoverableList lhs + Expr.recoverableList rhs
  | .other _ => 1
/-- The sum of `Stmt.recoverable` over a list of statements. -/
def Stmt.recoverableList : List Stmt → Nat
  | [] => 0
  | s :: rest => s.recoverable + Stmt.recoverableList rest
end

/-- The number of occurrences of a recoverable condition in a top-level
declaration, as the specification lists them. -/
def Decl.recoverable : Decl → Nat
  | .GenDecl decl => if decl.Tok = Token.VAR then (decl.Specs.map Spec.recoverable).sum else 0
  | .FuncDecl decl =>
    match decl.Body with
    | some body => Stmt.recoverableList body
    | none => 0
  | .BadDecl => 0

mutual
/-- The number of occurrences, at the places of the statement tree that
`genStmt` walks, of the conditions it reports: local const and type
declarations, local var specs with mismatched counts, returns with two or more
results, assignments with more than one target or value, and (in an expression
statement, an if condition, a single return result and the two sides of a
single assignment) complex-number literals and unrecognized expressions. -/
def Stmt.reported : Stmt → Nat
  | .BlockStmt list => Stmt.reportedList list
  | .DeclStmt (.GenDecl decl) =>
    match decl.Tok with
    | .CONST => 1
    | .TYPE => 1
    | .VAR => (decl.Specs.map Spec.mismatched).sum
    | _ => 0
  | .DeclStmt _ => 0
  | .ExprStmt x => x.recoverable
  | .IfStmt cond body els =>
    cond.recoverable + Stmt.reportedList body +
      (match els with
       | some s => s.reported
       | none => 0)
  | .ReturnStmt _ results =>
    if 2 ≤ results.length then 1 else Expr.recoverableList results
  | .AssignStmt lhs _ rhs =>
    if 1 < lhs.length ∨ 1 < rhs.length then 1
    else Expr.recoverableList lhs + Expr.recoverableList rhs
  | .other _ => 0
/-- The sum of `Stmt.reported` over a list of statements. -/
def Stmt.reportedList : List Stmt → Nat
  | [] => 0
  | s :: rest => s.reported + Stmt.reportedList rest
end

/-- The number of reported occurrences in the body of a top-level function;
0 for every other declaration. -/
def Decl.reported : Decl → Nat
  | .FuncDecl decl =>
    match decl.Body with
    | some body => Stmt.reportedList body
    | none => 0
  | _ => 0

/-! ## Sample trees -/

/-- A context whose file set prints every position as `test/var.glc:` and the
offset. -/
def sampleContext : context := ⟨fun p => "test/var.glc:" ++ toString p⟩

/-- The type expression `int`. -/
def intType : TypeExpr := TypeExpr.Ident "int"

/-- The tree of `func add(a int, b int) int { return a + b }`. -/
def addFunc : FuncDecl :=
  FuncDecl.mk ⟨6, "add"⟩
    [⟨[⟨10, "a"⟩], intType⟩, ⟨[⟨17, "b"⟩], intType⟩]
    (some [⟨[], intType⟩])
    (some [Stmt.ReturnStmt 30 [Expr.BinaryExpr (Expr.Ident 37 "a") Token.ADD (Expr.Ident 41 "b")]])

/-- The tree of a `var` declaration with the single spec `value`. -/
def varDecl (tokPos : Pos) (value : ValueSpec) : GenDecl :=
  ⟨tokPos, Token.VAR, [Spec.ValueSpec value]⟩

/-- The tree of `var x int`. -/
def varBare : GenDecl := varDecl 1 ⟨[⟨5, "x"⟩], some intType, []⟩

/-- The tree of `var a, b int = 1`. -/
def varFewer : GenDecl :=
  varDecl 1 ⟨[⟨5, "a"⟩, ⟨8, "b"⟩], some intType, [Expr.BasicLit 16 Token.INT "1"]⟩

/-- The tree of `var a int = 1, 2`. -/
def varMore : GenDecl :=
  varDecl 1 ⟨[⟨5, "a"⟩], some intType,
    [Expr.BasicLit 13 Token.INT "1", Expr.BasicLit 16 Token.INT "2"]⟩

/-- The tree of `var x int = 5`. -/
def varFive : GenDecl :=
  varDecl 1 ⟨[⟨5, "x"⟩], some intType, [Expr.BasicLit 13 Token.INT "5"]⟩

/-- The tree of `var x int = y`. -/
def varIdent : GenDecl :=
  varDecl 1 ⟨[⟨5, "x"⟩], some intType, [Expr.Ident 13 "y"]⟩

/-- The tree of `func f() {}`. -/
def emptyFunc : FuncDecl := FuncDecl.mk ⟨6, "f"⟩ [] none (some [])

/-- The tree of `func g() { for {} }`: the body is one statement
of a node type `genStmt` does not know (`*ast.ForStmt`), with `%#v` text
`&ast.ForStmt{...}`. -/
def forFunc : FuncDecl :=
  FuncDecl.mk ⟨6, "g"⟩ [] none (some [Stmt.other "&ast.ForStmt\x7b...\x7d"])

/-- The tree of `if c { var y int = x }`. -/
def ifVarIdent : Stmt :=
  Stmt.IfStmt (Expr.Ident 4 "c")
    [Stmt.DeclStmt (Decl.GenDecl (varDecl 8 ⟨[⟨12, "y"⟩], some intType, [Expr.Ident 20 "x"]⟩))]
    none

/-- The tree of `if c { return } else if d { x = 2i } else {}`. -/
def ifChain : Stmt :=
  Stmt.IfStmt (Expr.Ident 4 "c") [Stmt.ReturnStmt 8 []]
    (some (Stmt.IfStmt (Expr.Ident 25 "d")
      [Stmt.AssignStmt [Expr.Ident 29 "x"] Token.ASSIGN [Expr.BasicLit 33 Token.IMAG "2i"]]
      (some (Stmt.BlockStmt []))))

/-- The tree of `a, b = 1, 2`. -/
def assignPair : Stmt :=
  Stmt.AssignStmt [Expr.Ident 1 "a", Expr.Ident 4 "b"] Token.ASSIGN
    [Expr.BasicLit 8 Token.INT "1", Expr.BasicLit 11 Token.INT "2"]

/-- An assignment node with the target `a` and an empty right-hand list. -/
def assignNoValue : Stmt := Stmt.AssignStmt [Expr.Ident 1 "a"] Token.ASSIGN []

/-- The tree of `x = 2i`. -/
def assignImaginary : Stmt :=
  Stmt.AssignStmt [Expr.Ident 1 "x"] Token.ASSIGN [Expr.BasicLit 5 Token.IMAG "2i"]

/-- The tree of `func h() { const k = 1; if c ... }`, with `ifChain` as
the second statement and `a, b = 1, 2` as the third. -/
def reportingFunc : FuncDecl :=
  FuncDecl.mk ⟨6, "h"⟩ [] none
    (some [Stmt.DeclStmt (Decl.GenDecl ⟨10, Token.CONST,
        [Spec.ValueSpec ⟨[⟨16, "k"⟩], none, [Expr.BasicLit 20 Token.INT "1"]⟩]⟩),
      ifChain, assignPair])

/-! ## Further notions of the specification, with their sample trees -/

/-- The tree of the local declaration `var ( a, b int = 1; c int )`: a spec
with mismatched counts followed by a bare spec. -/
def localVarSkip : Stmt :=
  Stmt.DeclStmt (Decl.GenDecl ⟨3, Token.VAR,
    [Spec.ValueSpec ⟨[⟨9, "a"⟩, ⟨12, "b"⟩], some intType, [Expr.BasicLit 20 Token.INT "1"]⟩,
      Spec.ValueSpec ⟨[⟨23, "c"⟩], some intType, []⟩]⟩)

/-- Whether the token is one of the binary operators of the Go grammar. -/
def Token.isBinaryOp : Token → Bool
  | .LOR | .LAND | .EQL | .NEQ | .LSS | .LEQ | .GTR | .GEQ
  | .ADD | .SUB | .OR | .XOR | .MUL | .QUO | .REM | .SHL | .SHR | .AND | .AND_NOT => true
  | _ => false

/-- Whether the expression is built only from identifiers, integer,
floating-point, character and string literals, and binary operators. -/
def Expr.plain : Expr → Bool
  | .BasicLit _ kind _ =>
    decide (kind = Token.INT ∨ kind = Token.FLOAT ∨ kind = Token.CHAR ∨ kind = Token.STRING)
  | .Ident _ _ => true
  | .BinaryExpr x op y => x.plain && op.isBinaryOp && y.plain
  | _ => false

/-- The texts of the leaves of a plain expression, from left to right: the name
of an identifier, the original text of a literal. -/
def Expr.leaves : Expr → List String
  | .BasicLit _ _ value => [value]
  | .Ident _ name => [name]
  | .BinaryExpr x _ y => x.leaves ++ y.leaves
  | _ => []

/-- The in-order sequence of a plain expression: the leaf texts from left to
right, with the operator symbol between single spaces where two operands
meet. -/
def Expr.inorder : Expr → List String
  | .BasicLit _ _ value => [value]
  | .Ident _ name => [name]
  | .BinaryExpr x op y => x.inorder ++ [" " ++ op.toString ++ " "] ++ y.inorder
  | _ => []

/-- The number of parentheses in a text. -/
def parenCount (s : String) : Nat :=
  s.data.count '(' + s.data.count ')'

/-- Whether the declaration is a generic declaration with token `tok`. -/
def Decl.isGen (tok : Token) : Decl → Bool
  | .GenDecl decl => decide (decl.Tok = tok)
  | _ => false

/-- Whether the declaration is a function declaration. -/
def Decl.isFunc : Decl → Bool
  | .FuncDecl _ => true
  | _ => false

/-- Whether the declaration is of one of the five recognized kinds: import,
const, type, var or function. -/
def Decl.recognized (d : Decl) : Bool :=
  d.isGen Token.IMPORT || d.isGen Token.CONST || d.isGen Token.TYPE || d.isGen Token.VAR ||
    d.isFunc

/-- Whether the declaration is an import, const or type declaration. -/
def Decl.unemitted (d : Decl) : Bool :=
  d.isGen Token.IMPORT || d.isGen Token.CONST || d.isGen Token.TYPE

/-- The tree of `import "fmt"`. -/
def importDecl : GenDecl := ⟨1, Token.IMPORT, [Spec.ImportSpec]⟩

/-- The tree of `const k = 1`. -/
def constDecl : GenDecl :=
  ⟨1, Token.CONST, [Spec.ValueSpec ⟨[⟨7, "k"⟩], none, [Expr.BasicLit 11 Token.INT "1"]⟩]⟩

/-- The tree of `type T int`. -/
def typeDecl : GenDecl := ⟨1, Token.TYPE, [Spec.TypeSpec]⟩

/-- The tree of `a + b*2`, that is `a + (b * 2)`. -/
def sumExpr : Expr :=
  Expr.BinaryExpr (Expr.Ident 1 "a") Token.ADD
    (Expr.BinaryExpr (Expr.Ident 5 "b") Token.MUL (Expr.BasicLit 7 Token.INT "2"))

/-- Whether the expression is a basic literal. -/
def Expr.isBasicLit : Expr → Bool
  | .BasicLit _ _ _ => true
  | _ => false

/-- Whether the type expression is a plain named type (an identifier). -/
def TypeExpr.isIdent : TypeExpr → Bool
  | .Ident _ => true
  | _ => false

/-- The precondition on a top-level var spec: exactly one basic-literal
initializer per name. -/
def Spec.globalSafe : Spec → Bool
  | .ValueSpec value =>
    decide (value.Values.length = value.Names.length) && value.Values.all Expr.isBasicLit
  | _ => false

/-- The precondition on a local var spec: no initializers, or only
basic-literal initializers. -/
def Spec.localSafe : Spec → Bool
  | .ValueSpec value => value.Values.all Expr.isBasicLit
  | _ => false

mutual
/-- The preconditions on a statement tree: every declaration statement holds a
generic declaration, the specs of every local var declaration are value specs
with no or only basic-literal initializers, and every assignment has at least
one left-hand and one right-hand expression. -/
def Stmt.safe : Stmt → Bool
  | .BlockStmt list => Stmt.safeList list
  | .DeclStmt (.GenDecl decl) => decide (decl.Tok ≠ Token.VAR) || decl.Specs.all Spec.localSafe
  | .DeclStmt _ => false
  | .ExprStmt _ => true
  | .IfStmt _ body els =>
    Stmt.safeList body &&
      (match els with
       | some s => s.safe
       | none => true)
  | .ReturnStmt _ _ => true
  | .AssignStmt lhs _ rhs => !lhs.isEmpty && !rhs.isEmpty
  | .other _ => true
/-- The precondition `Stmt.safe` on every statement of a list. -/
def Stmt.safeList : List Stmt → Bool
  | [] => true
  | s :: rest => s.safe && Stmt.safeList rest
end

/-- The preconditions on a function: plain named parameter and result types,
a body, and the preconditions on its statements. -/
def FuncDecl.safe (f : FuncDecl) : Bool :=
  f.Params.all (fun p => p.Typ.isIdent) &&
    (match f.Results with
     | some results => results.all (fun p => p.Typ.isIdent)
     | none => true) &&
    (match f.Body with
     | some body => Stmt.safeList body
     | none => false)

/-- The preconditions on a top-level declaration: the specs of a var
declaration are value specs with exactly one basic-literal initializer per
name, and a function satisfies `FuncDecl.safe`. -/
def Decl.safe : Decl → Bool
  | .GenDecl decl => decide (decl.Tok ≠ Token.VAR) || decl.Specs.all Spec.globalSafe
  | .FuncDecl decl => decl.safe
  | .BadDecl => true

/-- The tree of the local declaration `var y int = a + b`. -/
def localVarSum : Stmt :=
  Stmt.DeclStmt (Decl.GenDecl (varDecl 3 ⟨[⟨7, "y"⟩], some intType,
    [Expr.BinaryExpr (Expr.Ident 15 "a") Token.ADD (Expr.Ident 19 "b")]⟩))

/-- The tree of `x += 2i`. -/
def assignComplex : Stmt :=
  Stmt.AssignStmt [Expr.Ident 1 "x"] Token.ADD_ASSIGN [Expr.BasicLit 6 Token.IMAG "2i"]

/-- The tree of `func twice(n int) int { var r int; r = n + n; return r }`. -/
def twiceFunc : FuncDecl :=
  FuncDecl.mk ⟨6, "twice"⟩ [⟨[⟨12, "n"⟩], intType⟩] (some [⟨[], intType⟩])
    (some [Stmt.DeclStmt (Decl.GenDecl (varDecl 25 ⟨[⟨29, "r"⟩], some intType, []⟩)),
      Stmt.AssignStmt [Expr.Ident 36 "r"] Token.ASSIGN
        [Expr.BinaryExpr (Expr.Ident 40 "n") Token.ADD (Expr.Ident 44 "n")],
      Stmt.ReturnStmt 47 [Expr.Ident 54 "r"]])

/-- Whether a text holds no brace character. -/
def braceFree (s : String) : Bool :=
  s.data.all fun ch => ch != '\x7b' && ch != '\x7d'

/-- A text is brace-balanced when it holds equally many opening and closing
braces and no prefix of it holds more closing than opening braces. -/
def braceBalanced (s : String) : Prop :=
  s.data.count '\x7b' = s.data.count '\x7d' ∧
    ∀ n : Nat, (s.data.take n).count '\x7d' ≤ (s.data.take n).count '\x7b'

/-- The nesting depth after reading the characters from depth `d` on: an
opening brace adds one, a closing brace takes one away, and the result is
`none` when a closing brace comes at depth 0. -/
def braceDepth : Nat → List Char → Option Nat
  | d, [] => some d
  | d, ch :: rest =>
    if ch = '\x7b' then braceDepth (d + 1) rest
    else if ch = '\x7d' then
      match d with
      | 0 => none
      | k + 1 => braceDepth k rest
    else braceDepth d rest

mutual
/-- Whether the expression tree holds only the node types `genExpr` renders
(literals, identifiers, binary expressions with a binary operator, calls) and
no brace in a name or literal text. -/
def Expr.clean : Expr → Bool
  | .BasicLit _ _ value => braceFree value
  | .Ident _ name => braceFree name
  | .BinaryExpr x op y => x.clean && op.isBinaryOp && y.clean
  | .CallExpr f args => f.clean && Expr.cleanList args
  | .other _ _ => false
/-- The condition `Expr.clean` on every expression of a list. -/
def Expr.cleanList : List Expr → Bool
  | [] => true
  | e :: rest => e.clean && Expr.cleanList rest
end

/-- Whether a local var spec is a value spec with no brace in the text of its
type, in its names and in its initializers. -/
def Spec.clean : Spec → Bool
  | .ValueSpec value =>
    braceFree (fmtV value.Typ) && value.Names.all (fun n => braceFree n.Name) &&
      Expr.cleanList value.Values
  | _ => false

mutual
/-- Whether the statement tree holds only the node types `genStmt` knows, with
clean expressions and clean local var specs. -/
def Stmt.clean : Stmt → Bool
  | .BlockStmt list => Stmt.cleanList list
  | .DeclStmt (.GenDecl decl) => decide (decl.Tok ≠ Token.VAR) || decl.Specs.all Spec.clean
  | .DeclStmt _ => false
  | .ExprStmt x => x.clean
  | .IfStmt cond body els =>
    cond.clean && Stmt.cleanList body &&
      (match els with
       | some s => s.clean
       | none => true)
  | .ReturnStmt _ results => Expr.cleanList results
  | .AssignStmt lhs _ rhs => Expr.cleanList lhs && Expr.cleanList rhs
  | .other _ => false
/-- The condition `Stmt.clean` on every statement of a list. -/
def Stmt.cleanList : List Stmt → Bool
  | [] => true
  | s :: rest => s.clean && Stmt.cleanList rest
end

/-- Whether a function declaration has no brace in its name, in its parameter
names and types and in the type of its first result, and a body of clean
statements. -/
def FuncDecl.clean (f : FuncDecl) : Bool :=
  braceFree f.Name.Name &&
    f.Params.all (fun p => braceFree (fmtV (some p.Typ)) && p.Names.all (fun n => braceFree n.Name)) &&
    (match f.Results with
     | some (p :: _) => braceFree (fmtV (some p.Typ))
     | _ => true) &&
    (match f.Body with
     | some body => Stmt.cleanList body
     | none => true)

/-- The tree of `func f() { var y int = x }`. -/
def localIdentFunc : FuncDecl :=
  FuncDecl.mk ⟨6, "f"⟩ [] none
    (some [Stmt.DeclStmt (Decl.GenDecl (varDecl 12 ⟨[⟨16, "y"⟩], some intType, [Expr.Ident 24 "x"]⟩))])

/-- The tree of `func h(n int) int { if c { return n } else if d { { x = f(n) } } else { } }`,
followed by `return n`. -/
def nestedFunc : FuncDecl :=
  FuncDecl.mk ⟨6, "h"⟩ [⟨[⟨8, "n"⟩], intType⟩] (some [⟨[], intType⟩])
    (some [Stmt.IfStmt (Expr.Ident 4 "c") [Stmt.ReturnStmt 8 [Expr.Ident 15 "n"]]
        (some (Stmt.IfStmt (Expr.Ident 25 "d")
          [Stmt.BlockStmt [Stmt.AssignStmt [Expr.Ident 29 "x"] Token.ASSIGN
            [Expr.CallExpr (Expr.Ident 33 "f") [Expr.Ident 35 "n"]]]]
          (some (Stmt.BlockStmt [])))),
      Stmt.ReturnStmt 50 [Expr.Ident 57 "n"]])

/-- The output of a piece of code nests: read from any depth `d` it never
closes a brace at depth 0 and ends at depth `d` or deeper, and at depth `d`
when the code ran to its end. -/
def Emit.Nests (e : Emit) : Prop :=
  ∀ d : Nat, ∃ k : Nat, braceDepth d e.out.data = some (d + k) ∧ (e.halt = none → k = 0)

/-! ## Sequencing -/

theorem Emit.andThen_eq (a b : Emit) : (a >> b) = Emit.seq a b := rfl

theorem Emit.skip_seq (a : Emit) : Emit.seq Emit.skip a = a := by
  cases a
  simp [Emit.seq, Emit.skip]

theorem Emit.seq_skip (a : Emit) : Emit.seq a Emit.skip = a := by
  rcases a with ⟨o, l, h⟩
  cases h <;> simp [Emit.seq, Emit.skip]

theorem Emit.seq_assoc (a b d : Emit) :
    Emit.seq (Emit.seq a b) d = Emit.seq a (Emit.seq b d) := by
  rcases a with ⟨ao, al, ah⟩
  rcases b with ⟨bo, bl, bh⟩
  cases ah <;> cases bh <;> simp [Emit.seq, String.append_assoc]

theorem Emit.seq_of_halt_none {a : Emit} (h : a.halt = none) (b : Emit) :
    Emit.seq a b = ⟨a.out ++ b.out, a.log ++ b.log, b.halt⟩ := by
  simp [Emit.seq, h]

theorem Emit.seq_of_halt_some {a : Emit} {x : Halt} (h : a.halt = some x) (b : Emit) :
    Emit.seq a b = a := by
  simp [Emit.seq, h]

theorem Emit.seq_halt_eq_none {a b : Emit} :
    (Emit.seq a b).halt = none ↔ a.halt = none ∧ b.halt = none := by
  rcases a with ⟨ao, al, ah⟩
  cases ah <;> simp [Emit.seq]

theorem Emit.fmtPrint_seq (s : String) (b : Emit) :
    Emit.seq (fmtPrint s) b = ⟨s ++ b.out, b.log, b.halt⟩ := by
  simp [Emit.seq, fmtPrint]

theorem Emit.forEach_append {α : Type} (body : α → Emit) (xs ys : List α) :
    Emit.forEach body (xs ++ ys) = Emit.seq (Emit.forEach body xs) (Emit.forEach body ys) := by
  induction xs with
  | nil => simp [Emit.forEach, Emit.skip_seq]
  | cons x rest ih => simp [Emit.forEach, Emit.andThen_eq, ih, Emit.seq_assoc]

mutual
theorem genExpr_halt (c : context) : ∀ e : Expr, (genExpr c e).halt = none
  | .BasicLit _ kind _ => by
    cases kind <;> simp [genExpr, fmtPrint, parseError, logPrint, Emit.skip]
  | .Ident _ _ => by simp [genExpr, fmtPrint]
  | .BinaryExpr x _ y => by
    simp [genExpr, Emit.andThen_eq, Emit.seq_halt_eq_none, genExpr_halt c x, genExpr_halt c y,
      fmtPrint]
  | .CallExpr f args => by
    simp [genExpr, Emit.andThen_eq, Emit.seq_halt_eq_none, genExpr_halt c f, genArgs_halt c args,
      fmtPrint]
  | .other _ _ => by simp [genExpr, logPrint]
theorem genArgs_halt (c : context) : ∀ es : List Expr, (genArgs c es).halt = none
  | [] => by simp [genArgs, Emit.skip]
  | a :: rest => by
    simp [genArgs, Emit.andThen_eq, Emit.seq_halt_eq_none, genExpr_halt c a, genArgs_halt c rest]
end

/-! ## Global variables and function signatures -/

theorem foldl_append_eq (xs : List String) :
    ∀ a : String, List.foldl (fun r s => r ++ s) a xs = a ++ List.foldl (fun r s => r ++ s) "" xs := by
  induction xs with
  | nil => intro a; simp
  | cons x rest ih =>
    intro a
    simp only [List.foldl_cons]
    rw [ih (a ++ x), ih ("" ++ x)]
    simp [String.append_assoc]

theorem join_nil : String.join [] = "" := rfl

theorem join_cons (x : String) (xs : List String) :
    String.join (x :: xs) = x ++ String.join xs := by
  simp only [String.join, List.foldl_cons]
  rw [foldl_append_eq]
  simp

theorem join_append (xs ys : List String) :
    String.join (xs ++ ys) = String.join xs ++ String.join ys := by
  induction xs with
  | nil => simp [join_nil]
  | cons x rest ih => simp [join_cons, ih, String.append_assoc]

theorem printInitialized_literals (value : ValueSpec) (names : List Ident) :
    ∀ (lits : List (Pos × Token × String)) (before : List Expr),
      names.length = lits.length →
      value.Values = before ++ lits.map (fun l => Expr.BasicLit l.1 l.2.1 l.2.2) →
      Emit.forRangeFrom (printInitialized value) before.length names =
        ⟨String.join (List.zipWith
          (fun n l => fmtV value.Typ ++ " " ++ n.Name ++ " = " ++ l.2.2 ++ ";\n") names lits),
          [], none⟩ := by
  induction names with
  | nil =>
    intro lits before hlen _
    cases lits with
    | nil => simp [Emit.forRangeFrom, Emit.skip, join_nil]
    | cons l ls => simp at hlen
  | cons n ns ih =>
    intro lits before hlen hval
    cases lits with
    | nil => simp at hlen
    | cons l ls =>
      have hrest := ih ls (before ++ [Expr.BasicLit l.1 l.2.1 l.2.2]) (by simpa using hlen)
        (by simp [hval])
      have hget : value.Values[before.length]? = some (Expr.BasicLit l.1 l.2.1 l.2.2) := by
        rw [hval, List.getElem?_append_right (Nat.le_refl _)]
        simp
      have hhead : printInitialized value before.length n =
          fmtPrint (fmtV value.Typ ++ " " ++ n.Name ++ " = " ++ l.2.2 ++ ";\n") := by
        simp [printInitialized, hget]
      simp only [List.length_append, List.length_singleton] at hrest
      simp [Emit.forRangeFrom, Emit.andThen_eq, hrest, hhead, Emit.fmtPrint_seq, join_cons]

theorem main_single_var (c : context) (tokPos : Pos) (value : ValueSpec) :
    main c [Decl.GenDecl (varDecl tokPos value)] = Emit.forRange value.Names (printInitialized value) := by
  simp [main, classify, varDecl, Emit.forEach, mainVar, mainSpec, Emit.andThen_eq, Emit.seq_skip]

/-- C1: on `func add(a int, b int) int` the signature line `main` prints is
`int add(int aint b,) {`: the delimiter is written after each parameter but the
first, so no comma stands between the two parameters and one follows the last.
The claimed line `int add(int a,int b) {` is not what is printed. -/
theorem signature_delimiter_follows_parameter (c : context) :
    main c [Decl.FuncDecl addFunc] =
        ⟨"int add(int aint b,) \x7b\nreturn a + b;\n\x7d\n", [], none⟩ ∧
      (main c [Decl.FuncDecl addFunc]).out ≠ "int add(int a,int b) \x7b\nreturn a + b;\n\x7d\n" := by
  have h : main c [Decl.FuncDecl addFunc] =
      ⟨"int add(int aint b,) \x7b\nreturn a + b;\n\x7d\n", [], none⟩ := rfl
  refine ⟨h, ?_⟩
  rw [h]
  decide

/-- C2: on the top-level declaration `var x int` (one name, no initializer)
`main` prints nothing and panics on `value.Values[0]`: no bare declaration
line `int x;` is emitted and generation does not continue. -/
theorem global_without_initializer_panics (c : context) :
    main c [Decl.GenDecl varBare] = ⟨"", [], some Halt.panicked⟩ ∧
      main c [Decl.GenDecl varBare, Decl.FuncDecl emptyFunc] = ⟨"", [], some Halt.panicked⟩ := by
  constructor <;> rfl

/-- C3: on the top-level declaration `var a, b int = 1` `main` prints the line
for `a`, reports nothing and panics on `value.Values[1]`; on `var a int = 1, 2`
it prints the line for `a`, reports nothing and goes on.  In neither case is
the spec skipped and a diagnostic reported. -/
theorem global_count_mismatch_unreported (c : context) :
    main c [Decl.GenDecl varFewer] = ⟨"int a = 1;\n", [], some Halt.panicked⟩ ∧
      main c [Decl.GenDecl varMore, Decl.FuncDecl emptyFunc] =
        ⟨"int a = 1;\nvoid f() \x7b\n\x7d\n", [], none⟩ := by
  constructor <;> rfl

/-- C4, as stated, fails: for `var x int = y`, whose initializer is an
identifier, neither `main` (top level) nor `genStmt` (local) prints the line
`int x = y;`; both panic on the type assertion before printing anything. -/
theorem var_identifier_initializer_panics :
    main sampleContext [Decl.GenDecl varIdent] = ⟨"", [], some Halt.panicked⟩ ∧
      genStmt sampleContext (Stmt.DeclStmt (Decl.GenDecl varIdent)) =
        ⟨"", [], some Halt.panicked⟩ ∧
      (main sampleContext [Decl.GenDecl varIdent]).out ≠ "int x = y;\n" ∧
      (genStmt sampleContext (Stmt.DeclStmt (Decl.GenDecl varIdent))).out ≠ "int x = y;\n" := by
  decide

/-- C4, amended: a var spec, top-level or local, with type `typ`, names
`n_1..n_N` and as many initializers, all of them basic literals with texts
`v_1..v_N`, emits exactly the `N` lines `T n_i = v_i;` in name order, where `T`
is what `%v` prints for the type; nothing is reported and generation goes
on. -/
theorem var_spec_literal_initializers (c : context) (tokPos : Pos) (typ : Option TypeExpr)
    (names : List Ident) (lits : List (Pos × Token × String))
    (hlen : names.length = lits.length) :
    main c [Decl.GenDecl
        (varDecl tokPos ⟨names, typ, lits.map (fun l => Expr.BasicLit l.1 l.2.1 l.2.2)⟩)] =
      ⟨String.join (List.zipWith
        (fun n l => fmtV typ ++ " " ++ n.Name ++ " = " ++ l.2.2 ++ ";\n") names lits), [], none⟩ ∧
    genStmt c (Stmt.DeclStmt (Decl.GenDecl
        (varDecl tokPos ⟨names, typ, lits.map (fun l => Expr.BasicLit l.1 l.2.1 l.2.2)⟩))) =
      ⟨String.join (List.zipWith
        (fun n l => fmtV typ ++ " " ++ n.Name ++ " = " ++ l.2.2 ++ ";\n") names lits), [], none⟩ ∧
    (List.zipWith
        (fun n l => fmtV typ ++ " " ++ n.Name ++ " = " ++ l.2.2 ++ ";\n") names lits).length =
      names.length := by
  have hloop := printInitialized_literals
    ⟨names, typ, lits.map (fun l => Expr.BasicLit l.1 l.2.1 l.2.2)⟩ names lits [] hlen (by simp)
  simp only [List.length_nil] at hloop
  refine ⟨?_, ?_, ?_⟩
  · rw [main_single_var]
    exact hloop
  · by_cases hzero : lits.length = 0
    · have hl : lits = [] := List.length_eq_zero.mp hzero
      have hn : names = [] := List.length_eq_zero.mp (by rw [hlen, hzero])
      subst hl
      subst hn
      simp [genStmt, varDecl, Emit.forEach, genStmtSpec, Emit.forRange, Emit.forRangeFrom,
        Emit.andThen_eq, Emit.seq, Emit.skip, join_nil]
    · simp [genStmt, varDecl, Emit.forEach, genStmtSpec, Emit.forRange, Emit.andThen_eq,
        Emit.seq_skip, hzero, hlen, hloop]
  · simp [hlen]

/-- C4 at `var x int = 5`: the top-level and the local declaration both emit
exactly `int x = 5;`. -/
theorem var_spec_literal_initializers_witness :
    main sampleContext [Decl.GenDecl varFive] = ⟨"int x = 5;\n", [], none⟩ ∧
      genStmt sampleContext (Stmt.DeclStmt (Decl.GenDecl varFive)) = ⟨"int x = 5;\n", [], none⟩ ∧
      [(⟨5, "x"⟩ : Ident)].length = [((13 : Pos), Token.INT, "5")].length :=
  have h := var_spec_literal_initializers sampleContext 1 (some intType) [⟨5, "x"⟩]
    [(13, Token.INT, "5")] rfl
  ⟨h.1, h.2.1, rfl⟩

/-! ## Classification and output order -/

theorem classify_bad (pre post : List Decl) :
    ∀ acc : Classified, classify (pre ++ Decl.BadDecl :: post) acc = none := by
  induction pre with
  | nil => intro acc; simp [classify]
  | cons d rest ih =>
    intro acc
    cases d with
    | GenDecl decl =>
      simp only [List.cons_append, classify]
      split <;> exact ih _
    | FuncDecl decl =>
      simp only [List.cons_append, classify]
      exact ih _
    | BadDecl => simp [classify]

theorem genDecls_cons_genDecl (tok : Token) (decl : GenDecl) (rest : List Decl) :
    genDecls tok (Decl.GenDecl decl :: rest) =
      if decl.Tok = tok then decl :: genDecls tok rest else genDecls tok rest := by
  by_cases h : decl.Tok = tok <;> simp [genDecls, List.filterMap_cons, h]

theorem genDecls_cons_funcDecl (tok : Token) (decl : FuncDecl) (rest : List Decl) :
    genDecls tok (Decl.FuncDecl decl :: rest) = genDecls tok rest := by
  simp [genDecls, List.filterMap_cons]

theorem funcDecls_cons_genDecl (decl : GenDecl) (rest : List Decl) :
    funcDecls (Decl.GenDecl decl :: rest) = funcDecls rest := by
  simp [funcDecls, List.filterMap_cons]

theorem funcDecls_cons_funcDecl (decl : FuncDecl) (rest : List Decl) :
    funcDecls (Decl.FuncDecl decl :: rest) = decl :: funcDecls rest := by
  simp [funcDecls, List.filterMap_cons]

theorem classify_eq (decls : List Decl) :
    ∀ acc : Classified, Decl.BadDecl ∉ decls →
      classify decls acc = some
        ⟨acc.imports ++ genDecls Token.IMPORT decls, acc.consts ++ genDecls Token.CONST decls,
          acc.types ++ genDecls Token.TYPE decls, acc.vars ++ genDecls Token.VAR decls,
          acc.funcs ++ funcDecls decls⟩ := by
  induction decls with
  | nil => intro acc _; simp [classify, genDecls, funcDecls]
  | cons d rest ih =>
    intro acc hbad
    have hrest : Decl.BadDecl ∉ rest := fun h => hbad (List.mem_cons_of_mem _ h)
    cases d with
    | GenDecl decl =>
      simp only [classify]
      split
      all_goals rw [ih _ hrest]
      all_goals simp_all [genDecls_cons_genDecl, funcDecls_cons_genDecl]
    | FuncDecl decl =>
      simp only [classify]
      rw [ih _ hrest]
      simp [genDecls_cons_funcDecl, funcDecls_cons_funcDecl]
    | BadDecl => exact absurd (List.mem_cons_self _ _) hbad

theorem main_eq (c : context) (decls : List Decl) (hbad : Decl.BadDecl ∉ decls) :
    main c decls =
      Emit.seq (Emit.forEach mainVar (genDecls Token.VAR decls))
        (Emit.forEach (mainFunc c) (funcDecls decls)) := by
  simp [main, classify_eq decls _ hbad, Emit.andThen_eq]

theorem Emit.forEach_halt_cons {α : Type} (body : α → Emit) (x : α) (rest : List α)
    (h : (Emit.forEach body (x :: rest)).halt = none) :
    (body x).halt = none ∧ (Emit.forEach body rest).halt = none := by
  simpa [Emit.forEach, Emit.andThen_eq, Emit.seq_halt_eq_none] using h

theorem Emit.forEach_out {α : Type} (body : α → Emit) (xs : List α)
    (h : (Emit.forEach body xs).halt = none) :
    (Emit.forEach body xs).out = String.join (xs.map fun x => (body x).out) := by
  induction xs with
  | nil => simp [Emit.forEach, Emit.skip, join_nil]
  | cons x rest ih =>
    have hh := Emit.forEach_halt_cons body x rest h
    simp [Emit.forEach, Emit.andThen_eq, Emit.seq_of_halt_none hh.1, ih hh.2, join_cons]

theorem Emit.forEach_log {α : Type} (body : α → Emit) (xs : List α)
    (h : (Emit.forEach body xs).halt = none) :
    (Emit.forEach body xs).log.length = (xs.map fun x => (body x).log.length).sum := by
  induction xs with
  | nil => simp [Emit.forEach, Emit.skip]
  | cons x rest ih =>
    have hh := Emit.forEach_halt_cons body x rest h
    simp [Emit.forEach, Emit.andThen_eq, Emit.seq_of_halt_none hh.1, ih hh.2]

/-- C6, as stated, fails: for the file `func f() {}` followed by
`var x int = 5` the output is the variable's line first and the function's text
after it, not the two texts in source order. -/
theorem function_before_global_is_reordered :
    (main sampleContext [Decl.FuncDecl emptyFunc]).out = "void f() \x7b\n\x7d\n" ∧
      (main sampleContext [Decl.GenDecl varFive]).out = "int x = 5;\n" ∧
      (main sampleContext [Decl.FuncDecl emptyFunc, Decl.GenDecl varFive]).out =
        "int x = 5;\nvoid f() \x7b\n\x7d\n" ∧
      (main sampleContext [Decl.FuncDecl emptyFunc, Decl.GenDecl varFive]).out ≠
        (main sampleContext [Decl.FuncDecl emptyFunc]).out ++
          (main sampleContext [Decl.GenDecl varFive]).out := by
  decide

/-- C6, amended: when no top-level declaration is of unknown kind, `main` emits
the top-level var declarations in their source order and after them the
function declarations in their source order; when the run completes, the output
is the concatenation of the vars' texts in source order followed by the
concatenation of the functions' texts in source order.  So two declarations of
the same kind keep their order, and every var precedes every function. -/
theorem output_is_vars_then_funcs (c : context) (decls : List Decl)
    (hbad : Decl.BadDecl ∉ decls) :
    main c decls =
        (Emit.forEach mainVar (genDecls Token.VAR decls) >>
          Emit.forEach (mainFunc c) (funcDecls decls)) ∧
      ((main c decls).halt = none →
        (main c decls).out =
          String.join ((genDecls Token.VAR decls).map fun v => (mainVar v).out) ++
            String.join ((funcDecls decls).map fun f => (mainFunc c f).out)) := by
  refine ⟨main_eq c decls hbad, fun hrun => ?_⟩
  rw [main_eq c decls hbad] at hrun ⊢
  have hh := Emit.seq_halt_eq_none.mp hrun
  rw [Emit.seq_of_halt_none hh.1]
  simp [Emit.forEach_out _ _ hh.1, Emit.forEach_out _ _ hh.2]

/-- C6 at `func f() {}` followed by `var x int = 5`: the variable's line, then
the function. -/
theorem output_is_vars_then_funcs_witness :
    Decl.BadDecl ∉ [Decl.FuncDecl emptyFunc, Decl.GenDecl varFive] ∧
      main sampleContext [Decl.FuncDecl emptyFunc, Decl.GenDecl varFive] =
        (Emit.forEach mainVar [varFive] >> Emit.forEach (mainFunc sampleContext) [emptyFunc]) :=
  ⟨by simp, (output_is_vars_then_funcs sampleContext
    [Decl.FuncDecl emptyFunc, Decl.GenDecl varFive] (by simp)).1⟩

/-- C7: when the top-level declarations contain a node that is neither a
generic declaration nor a function declaration, `main` stops in the
classification loop at the first such node with the single fatal message
`unknown decl`: nothing is emitted, and the result does not depend on the
declarations after it. -/
theorem unknown_decl_is_fatal (c : context) (pre post : List Decl) :
    main c (pre ++ Decl.BadDecl :: post) = ⟨"", ["unknown decl\n"], some Halt.exit⟩ := by
  simp [main, classify_bad, logFatalln]

/-- C8: a return statement with no result prints the line `return;` and
reports nothing; with one result `e` it prints `return `, the rendering of `e`,
`;` and a newline; with two or more results it prints nothing and reports
exactly one diagnostic. -/
theorem return_statement (c : context) (ret : Pos) :
    genStmt c (Stmt.ReturnStmt ret []) = ⟨"return;\n", [], none⟩ ∧
      (∀ e : Expr, genStmt c (Stmt.ReturnStmt ret [e]) =
        ⟨"return " ++ (genExpr c e).out ++ ";\n", (genExpr c e).log, none⟩) ∧
      (∀ (e1 e2 : Expr) (rest : List Expr), genStmt c (Stmt.ReturnStmt ret (e1 :: e2 :: rest)) =
        ⟨"", [c.fset ret ++ ": s%!(EXTRA string=multiple return values not currently supported)"],
          none⟩) := by
  refine ⟨by simp [genStmt, fmtPrint], fun e => ?_, fun e1 e2 rest => ?_⟩
  · simp [genStmt, Emit.andThen_eq, Emit.fmtPrint_seq, Emit.seq_of_halt_none (genExpr_halt c e),
      Emit.seq, fmtPrint, genExpr_halt c e, String.append_assoc]
  · simp [genStmt, parseError, logPrint, String.append_assoc]

/-! ## Statements -/

theorem Emit.seq_out {a : Emit} (h : a.halt = none) (b : Emit) :
    (Emit.seq a b).out = a.out ++ b.out := by
  simp [Emit.seq, h]

theorem Emit.seq_log {a : Emit} (h : a.halt = none) (b : Emit) :
    (Emit.seq a b).log = a.log ++ b.log := by
  simp [Emit.seq, h]

theorem Emit.seq_log_nil {a b : Emit} (ha : a.log = []) (hb : b.log = []) :
    (Emit.seq a b).log = [] := by
  rcases a with ⟨ao, al, ah⟩
  cases ah <;> simp_all [Emit.seq]

theorem genBlock_eq_forEach (c : context) (list : List Stmt) :
    genBlock c list = Emit.forEach (genStmt c) list := by
  induction list with
  | nil => simp [genBlock, Emit.forEach]
  | cons stmt rest ih => simp [genBlock, Emit.forEach, ih]

/-- C9, as stated, fails: for `if c { var y int = x }` the output is
`if (c) {` and a newline, after which the run panics in the then-block; no
closing `}` line follows. -/
theorem if_with_panicking_block_is_unclosed :
    genStmt sampleContext ifVarIdent = ⟨"if (c) \x7b\n", [], some Halt.panicked⟩ ∧
      (genStmt sampleContext ifVarIdent).out ≠
        "if (" ++ (genExpr sampleContext (Expr.Ident 4 "c")).out ++ ") \x7b\n" ++
          (genBlock sampleContext [Stmt.DeclStmt (Decl.GenDecl
            (varDecl 8 ⟨[⟨12, "y"⟩], some intType, [Expr.Ident 20 "x"]⟩))]).out ++ "\x7d\n" := by
  decide

/-- C9, amended: for an if statement with condition `cond`, then-block `body`
and optional else-branch, when generating the then-block does not stop the run,
the output is `if (`, the rendering of `cond`, `) {`, a newline and the
renderings of the statements of `body` in order, followed by the line `}` when
there is no else-branch, and by `} else ` and the statement rendering of the
else-branch when there is one. -/
theorem if_statement (c : context) (cond : Expr) (body : List Stmt)
    (hbody : (genBlock c body).halt = none) :
    (genBlock c body).out = String.join (body.map fun s => (genStmt c s).out) ∧
      (genStmt c (Stmt.IfStmt cond body none)).out =
        "if (" ++ (genExpr c cond).out ++ ") \x7b\n" ++ (genBlock c body).out ++ "\x7d\n" ∧
      (∀ els : Stmt, (genStmt c (Stmt.IfStmt cond body (some els))).out =
        "if (" ++ (genExpr c cond).out ++ ") \x7b\n" ++ (genBlock c body).out ++ "\x7d else " ++
          (genStmt c els).out) := by
  have hcond := genExpr_halt c cond
  refine ⟨?_, ?_, fun els => ?_⟩
  · rw [genBlock_eq_forEach] at hbody ⊢
    exact Emit.forEach_out _ _ hbody
  · simp [genStmt, Emit.andThen_eq, Emit.seq, hcond, hbody, fmtPrint, String.append_assoc]
  · simp [genStmt, Emit.andThen_eq, Emit.seq, hcond, hbody, fmtPrint, String.append_assoc]

/-- C9 at `if c { return }`, without and with the else-branch `{}`. -/
theorem if_statement_witness :
    (genBlock sampleContext [Stmt.ReturnStmt 8 []]).halt = none ∧
      (genStmt sampleContext
        (Stmt.IfStmt (Expr.Ident 4 "c") [Stmt.ReturnStmt 8 []] none)).out =
          "if (c) \x7b\nreturn;\n\x7d\n" ∧
      (genStmt sampleContext
        (Stmt.IfStmt (Expr.Ident 4 "c") [Stmt.ReturnStmt 8 []] (some (Stmt.BlockStmt [])))).out =
          "if (c) \x7b\nreturn;\n\x7d else \x7b\n\x7d\n" :=
  have h := if_statement sampleContext (Expr.Ident 4 "c") [Stmt.ReturnStmt 8 []] (by decide)
  ⟨by decide, h.2.1, h.2.2 (Stmt.BlockStmt [])⟩

/-- C10, as stated, fails: `x = 2i` has exactly one left-hand and one
right-hand expression, yet a diagnostic is reported: rendering the right-hand
side reports the complex-number literal, and the text is `x = ;`. -/
theorem single_assign_reports_operand :
    genStmt sampleContext assignImaginary =
        ⟨"x = ;\n",
          ["test/var.glc:5: s%!(EXTRA string=complex numbers not currently supported)"], none⟩ ∧
      (genStmt sampleContext assignImaginary).log ≠ [] := by
  decide

/-- C10, amended: an assignment with exactly one left-hand expression `l` and
exactly one right-hand expression `r` prints the rendering of `l`, ` = `, the
rendering of `r`, `;` and a newline, and reports nothing of its own: the
diagnostics are those of rendering `l` and `r`.  An assignment of any other
arity (at least one expression on each side, as the parser builds it, and more
than one on a side) prints nothing, makes exactly one report, the call of
`parseError` with the message `multiple assignment not currently supported` at
the position of the first left-hand expression, and generation goes on; the
same holds whenever there is a first left-hand expression and more than one
expression on either side. -/
theorem assign_statement (c : context) (tok : Token) :
    (∀ l r : Expr, genStmt c (Stmt.AssignStmt [l] tok [r]) =
        ⟨(genExpr c l).out ++ " = " ++ (genExpr c r).out ++ ";\n",
          (genExpr c l).log ++ (genExpr c r).log, none⟩) ∧
      (∀ (l r : Expr) (lhs rhs : List Expr), lhs ≠ [] ∨ rhs ≠ [] →
        genStmt c (Stmt.AssignStmt (l :: lhs) tok (r :: rhs)) =
          ⟨"", [c.fset l.pos ++ ": s%!(EXTRA string=multiple assignment not currently supported)"],
            none⟩) ∧
      (∀ (l : Expr) (lhs rhs : List Expr), 1 < (l :: lhs).length ∨ 1 < rhs.length →
        genStmt c (Stmt.AssignStmt (l :: lhs) tok rhs) =
          ⟨"", [c.fset l.pos ++ ": s%!(EXTRA string=multiple assignment not currently supported)"],
            none⟩) := by
  have hmulti : ∀ (l : Expr) (lhs rhs : List Expr), 1 < (l :: lhs).length ∨ 1 < rhs.length →
      genStmt c (Stmt.AssignStmt (l :: lhs) tok rhs) =
        ⟨"", [c.fset l.pos ++ ": s%!(EXTRA string=multiple assignment not currently supported)"],
          none⟩ := by
    intro l lhs rhs h
    have h2 : (l :: lhs).length > 1 ∨ rhs.length > 1 := h
    simp only [genStmt, h2, if_true]
    simp [parseError, logPrint, String.append_assoc]
  refine ⟨fun l r => ?_, fun l r lhs rhs h => ?_, hmulti⟩
  · simp [genStmt, Emit.andThen_eq, Emit.seq, genExpr_halt c l, genExpr_halt c r, fmtPrint,
      String.append_assoc]
  · apply hmulti
    rcases h with h | h
    · left
      cases lhs with
      | nil => exact absurd rfl h
      | cons x xs => simp
    · right
      cases rhs with
      | nil => exact absurd rfl h
      | cons x xs => simp

/-- C10 at `a, b = 1, 2`: no text, and the one report. -/
theorem assign_statement_witness :
    ([Expr.Ident 4 "b"] ≠ [] ∨ [Expr.BasicLit 11 Token.INT "2"] ≠ []) ∧
      genStmt sampleContext assignPair =
        ⟨"", ["test/var.glc:1: s%!(EXTRA string=multiple assignment not currently supported)"],
          none⟩ ∧
      (1 < [Expr.Ident 1 "a", Expr.Ident 4 "b"].length ∨
        1 < [Expr.BasicLit 8 Token.INT "1", Expr.BasicLit 11 Token.INT "2"].length) :=
  ⟨Or.inl (by simp),
    (assign_statement sampleContext Token.ASSIGN).2.1 (Expr.Ident 1 "a")
      (Expr.BasicLit 8 Token.INT "1") [Expr.Ident 4 "b"] [Expr.BasicLit 11 Token.INT "2"]
      (Or.inl (by simp)),
    by decide⟩

/-! ## Diagnostics -/

mutual
theorem genExpr_log (c : context) : ∀ e : Expr, (genExpr c e).log.length = e.recoverable
  | .BasicLit _ kind _ => by
    cases kind <;> simp [genExpr, Expr.recoverable, fmtPrint, parseError, logPrint, Emit.skip]
  | .Ident _ _ => by simp [genExpr, Expr.recoverable, fmtPrint]
  | .BinaryExpr x _ y => by
    simp [genExpr, Expr.recoverable, Emit.andThen_eq, Emit.seq, genExpr_halt c x,
      genExpr_log c x, genExpr_log c y, fmtPrint]
  | .CallExpr f args => by
    simp [genExpr, Expr.recoverable, Emit.andThen_eq, Emit.seq, genExpr_halt c f,
      genArgs_halt c args, genExpr_log c f, genArgs_log c args, fmtPrint]
  | .other _ _ => by simp [genExpr, Expr.recoverable, logPrint]
theorem genArgs_log (c : context) :
    ∀ es : List Expr, (genArgs c es).log.length = Expr.recoverableList es
  | [] => by simp [genArgs, Expr.recoverableList, Emit.skip]
  | a :: rest => by
    simp [genArgs, Expr.recoverableList, Emit.andThen_eq, Emit.seq, genExpr_halt c a,
      genExpr_log c a, genArgs_log c rest]
end

theorem Emit.forRangeFrom_log_nil {α : Type} (body : Nat → α → Emit)
    (hbody : ∀ i x, (body i x).log = []) :
    ∀ (xs : List α) (i : Nat), (Emit.forRangeFrom body i xs).log = [] := by
  intro xs
  induction xs with
  | nil => intro i; simp [Emit.forRangeFrom, Emit.skip]
  | cons x rest ih =>
    intro i
    simp only [Emit.forRangeFrom, Emit.andThen_eq]
    exact Emit.seq_log_nil (hbody i x) (ih (i + 1))

theorem Emit.forRangeFrom_halt_none {α : Type} (body : Nat → α → Emit)
    (hbody : ∀ i x, (body i x).halt = none) :
    ∀ (xs : List α) (i : Nat), (Emit.forRangeFrom body i xs).halt = none := by
  intro xs
  induction xs with
  | nil => intro i; simp [Emit.forRangeFrom, Emit.skip]
  | cons x rest ih =>
    intro i
    simp only [Emit.forRangeFrom, Emit.andThen_eq]
    exact Emit.seq_halt_eq_none.mpr ⟨hbody i x, ih (i + 1)⟩

theorem Emit.forEach_log_nil {α : Type} (body : α → Emit) (hbody : ∀ x, (body x).log = []) :
    ∀ xs : List α, (Emit.forEach body xs).log = [] := by
  intro xs
  induction xs with
  | nil => simp [Emit.forEach, Emit.skip]
  | cons x rest ih =>
    simp only [Emit.forEach, Emit.andThen_eq]
    exact Emit.seq_log_nil (hbody x) ih

theorem Emit.forEach_count {α : Type} (body : α → Emit) (count : α → Nat)
    (hbody : ∀ x, (body x).halt = none → (body x).log.length = count x) :
    ∀ xs : List α, (Emit.forEach body xs).halt = none →
      (Emit.forEach body xs).log.length = (xs.map count).sum := by
  intro xs
  induction xs with
  | nil => intro _; simp [Emit.forEach, Emit.skip]
  | cons x rest ih =>
    intro h
    have hh := Emit.forEach_halt_cons body x rest h
    simp [Emit.forEach, Emit.andThen_eq, Emit.seq_log hh.1, hbody x hh.1, ih hh.2]

theorem printInitialized_log (value : ValueSpec) (i : Nat) (name : Ident) :
    (printInitialized value i name).log = [] := by
  unfold printInitialized
  split <;> simp [fmtPrint, goPanic]

theorem genStmtSpec_log (c : context) (gendecl : GenDecl) (s : Spec)
    (h : (genStmtSpec c gendecl s).halt = none) :
    (genStmtSpec c gendecl s).log.length = s.mismatched := by
  cases s with
  | ImportSpec => simp [genStmtSpec, goPanic] at h
  | TypeSpec => simp [genStmtSpec, goPanic] at h
  | ValueSpec value =>
    have hbare : (Emit.forRangeFrom
        (fun (_ : Nat) (name : Ident) => fmtPrint (fmtV value.Typ ++ " " ++ name.Name ++ ";\n"))
        0 value.Names).log = [] :=
      Emit.forRangeFrom_log_nil _ (fun _ _ => rfl) _ _
    have hinit := Emit.forRangeFrom_log_nil _ (printInitialized_log value) value.Names 0
    by_cases hzero : value.Values.length = 0
    · simp only [genStmtSpec, Spec.mismatched, hzero, Emit.forRange, if_true, hbare]
      simp
    · by_cases hne : value.Values.length = value.Names.length
      · simp only [genStmtSpec, Spec.mismatched, hzero, Emit.forRange, if_false]
        simp [hne, hinit]
      · simp [genStmtSpec, Spec.mismatched, hzero, hne, parseError, logPrint]

mutual
theorem genStmt_log (c : context) :
    ∀ s : Stmt, (genStmt c s).halt = none → (genStmt c s).log.length = s.reported
  | .BlockStmt list, h => by
    have hlist : (genBlock c list).halt = none := by
      simpa [genStmt, Emit.andThen_eq, Emit.seq_halt_eq_none, fmtPrint] using h
    simp [genStmt, Stmt.reported, Emit.andThen_eq, Emit.seq, hlist, fmtPrint,
      genBlock_log c list hlist]
  | .DeclStmt (.GenDecl decl), h => by
    simp only [genStmt, Stmt.reported] at h ⊢
    split
    · simp [parseError, logPrint]
    · simp [parseError, logPrint]
    · rename_i hvar
      simp only [hvar] at h
      exact Emit.forEach_count _ _ (genStmtSpec_log c decl) _ h
    · simp [Emit.skip]
  | .DeclStmt (.FuncDecl _), h => by simp [genStmt, goPanic] at h
  | .DeclStmt .BadDecl, h => by simp [genStmt, goPanic] at h
  | .ExprStmt x, _ => by
    simp [genStmt, Stmt.reported, Emit.andThen_eq, Emit.seq, genExpr_halt c x, fmtPrint,
      genExpr_log c x]
  | .IfStmt cond body none, h => by
    have hbody : (genBlock c body).halt = none := by
      have h2 := h
      simp only [genStmt, Emit.andThen_eq, Emit.seq_halt_eq_none] at h2
      exact h2.2.2.2.1
    simp [genStmt, Stmt.reported, Emit.andThen_eq, Emit.seq, genExpr_halt c cond, hbody, fmtPrint,
      genExpr_log c cond, genBlock_log c body hbody]
  | .IfStmt cond body (some els), h => by
    have h2 := h
    simp only [genStmt, Emit.andThen_eq, Emit.seq_halt_eq_none] at h2
    have hbody : (genBlock c body).halt = none := h2.2.2.2.1
    have hels : (genStmt c els).halt = none := h2.2.2.2.2.2
    simp [genStmt, Stmt.reported, Emit.andThen_eq, Emit.seq, genExpr_halt c cond, hbody, fmtPrint,
      genExpr_log c cond, genBlock_log c body hbody, genStmt_log c els hels, Nat.add_assoc]
  | .ReturnStmt _ [], _ => by
    simp [genStmt, Stmt.reported, fmtPrint, Expr.recoverableList]
  | .ReturnStmt _ [e], _ => by
    simp [genStmt, Stmt.reported, Emit.andThen_eq, Emit.seq, genExpr_halt c e, fmtPrint,
      genExpr_log c e, Expr.recoverableList]
  | .ReturnStmt _ (_ :: _ :: _), _ => by
    simp [genStmt, Stmt.reported, parseError, logPrint]
  | .AssignStmt [] _ rhs, h => by
    simp only [genStmt] at h
    split at h <;> simp [goPanic] at h
  | .AssignStmt [l] _ [], h => by
    simp [genStmt, Emit.andThen_eq, Emit.seq, genExpr_halt c l, fmtPrint, goPanic] at h
  | .AssignStmt [l] _ [r], _ => by
    simp [genStmt, Stmt.reported, Emit.andThen_eq, Emit.seq, genExpr_halt c l, genExpr_halt c r,
      fmtPrint, genExpr_log c l, genExpr_log c r, Expr.recoverableList]
  | .AssignStmt [l] _ (_ :: _ :: _), _ => by
    simp [genStmt, Stmt.reported, parseError, logPrint]
  | .AssignStmt (_ :: _ :: _) _ rhs, _ => by
    simp [genStmt, Stmt.reported, parseError, logPrint]
  | .other _, _ => by simp [genStmt, Stmt.reported, fmtPrint]
theorem genBlock_log (c : context) :
    ∀ list : List Stmt, (genBlock c list).halt = none →
      (genBlock c list).log.length = Stmt.reportedList list
  | [], _ => by simp [genBlock, Stmt.reportedList, Emit.skip]
  | stmt :: rest, h => by
    have h2 := h
    simp only [genBlock, Emit.andThen_eq, Emit.seq_halt_eq_none] at h2
    simp [genBlock, Stmt.reportedList, Emit.andThen_eq, Emit.seq_log h2.1,
      genStmt_log c stmt h2.1, genBlock_log c rest h2.2]
end

theorem mainSpec_log (s : Spec) : (mainSpec s).log = [] := by
  cases s with
  | ImportSpec => simp [mainSpec, goPanic]
  | TypeSpec => simp [mainSpec, goPanic]
  | ValueSpec value =>
    simp only [mainSpec, Emit.forRange]
    exact Emit.forRangeFrom_log_nil _ (printInitialized_log value) _ _

theorem mainVar_log (v : GenDecl) : (mainVar v).log = [] :=
  Emit.forEach_log_nil _ mainSpec_log _

theorem mainFunc_log (c : context) (f : FuncDecl) (h : (mainFunc c f).halt = none) :
    (mainFunc c f).log.length = Decl.reported (Decl.FuncDecl f) := by
  rcases f with ⟨name, params, results, body⟩
  simp only [mainFunc, FuncDecl.Params, FuncDecl.Results, FuncDecl.Body, FuncDecl.Name,
    Decl.reported] at h ⊢
  cases hp : collectParams params with
  | none => simp [hp, goPanic] at h
  | some ps =>
    cases hr : firstResult results with
    | none => simp [hp, hr, goPanic] at h
    | some result =>
      have hloop : ∀ (xs : List (String × String)) (i : Nat),
          (Emit.forRangeFrom (fun (i : Nat) (p : String × String) =>
            fmtPrint (p.1 ++ " " ++ p.2 ++ if i ≠ 0 then "," else "")) i xs).log = [] :=
        Emit.forRangeFrom_log_nil _ (fun _ _ => rfl)
      cases body with
      | none =>
        simp [hp, hr, Emit.andThen_eq, Emit.seq_halt_eq_none, goPanic] at h
      | some stmts =>
        simp only [hp, hr, Emit.andThen_eq, Emit.seq_halt_eq_none, Emit.forRange] at h
        have hbody : (genBlock c stmts).halt = none := h.2.2.2.1
        simp only [hp, hr, Emit.andThen_eq, Emit.forRange]
        rw [Emit.seq_log h.1, Emit.seq_log h.2.1, Emit.seq_log h.2.2.1, Emit.seq_log hbody, hloop]
        simp [fmtPrint, genBlock_log c stmts hbody]

theorem funcDecls_reported (decls : List Decl) :
    ((funcDecls decls).map fun f => Decl.reported (Decl.FuncDecl f)).sum =
      (decls.map Decl.reported).sum := by
  induction decls with
  | nil => simp [funcDecls]
  | cons d rest ih =>
    cases d with
    | GenDecl decl => simpa [funcDecls_cons_genDecl, Decl.reported] using ih
    | FuncDecl decl => simp [funcDecls_cons_funcDecl, ih]
    | BadDecl =>
      have hcons : funcDecls (Decl.BadDecl :: rest) = funcDecls rest := by
        simp [funcDecls, List.filterMap_cons]
      simpa [hcons, Decl.reported] using ih

theorem main_completes_only_without_bad (c : context) (decls : List Decl)
    (h : (main c decls).halt = none) : Decl.BadDecl ∉ decls := by
  intro hmem
  obtain ⟨pre, post, hsplit⟩ := List.append_of_mem hmem
  rw [hsplit] at h
  simp [main, classify_bad, logFatalln] at h

/-- C5, as stated, fails: the body of `func g() { for {} }` is one statement
of unrecognized variant, so the tree holds one recoverable condition, yet
`main` reports nothing: `genStmt` writes the `%#v` text of the statement to
standard output, not to the diagnostic sink. -/
theorem unrecognized_statement_is_not_reported :
    main sampleContext [Decl.FuncDecl forFunc] =
        ⟨"void g() \x7b\n&ast.ForStmt\x7b...\x7d\n\x7d\n", [], none⟩ ∧
      ([Decl.FuncDecl forFunc].map Decl.recoverable).sum = 1 ∧
      (main sampleContext [Decl.FuncDecl forFunc]).log.length ≠
        ([Decl.FuncDecl forFunc].map Decl.recoverable).sum := by
  decide

/-- C5, amended: for every list of top-level declarations whose var specs have
matching counts and on which `main` runs to completion, the number of
diagnostics equals the number of occurrences, at the places of the function
bodies that the generator walks, of: a local const declaration, a local type
declaration, a local var spec with mismatched counts, a return with two or
more results, an assignment with more than one target or value, and a
complex-number literal or unrecognized expression variant inside a rendered
expression.  Each such occurrence makes exactly one report and nothing else
makes one. -/
theorem diagnostics_count (c : context) (decls : List Decl)
    (hrun : (main c decls).halt = none)
    (_hvars : ∀ v ∈ genDecls Token.VAR decls, ∀ s ∈ v.Specs, Spec.mismatched s = 0) :
    (main c decls).log.length = (decls.map Decl.reported).sum := by
  have hbad := main_completes_only_without_bad c decls hrun
  rw [main_eq c decls hbad] at hrun ⊢
  have hh := Emit.seq_halt_eq_none.mp hrun
  rw [Emit.seq_log hh.1, Emit.forEach_log_nil _ mainVar_log, List.nil_append,
    Emit.forEach_count _ _ (mainFunc_log c) _ hh.2]
  exact funcDecls_reported decls

/-- C5 at `var x int = 5` followed by a function with a local const, a complex
literal in an assignment and a two-target assignment: three diagnostics. -/
theorem diagnostics_count_witness :
    (main sampleContext [Decl.GenDecl varFive, Decl.FuncDecl reportingFunc]).halt = none ∧
      (∀ v ∈ genDecls Token.VAR [Decl.GenDecl varFive, Decl.FuncDecl reportingFunc],
        ∀ s ∈ v.Specs, Spec.mismatched s = 0) ∧
      (main sampleContext [Decl.GenDecl varFive, Decl.FuncDecl reportingFunc]).log.length = 3 :=
  ⟨by decide, by decide,
    diagnostics_count sampleContext [Decl.GenDecl varFive, Decl.FuncDecl reportingFunc]
      (by decide) (by decide)⟩

/-! ## Local declarations -/

theorem forRangeFrom_fmtPrint {α : Type} (text : α → String) (xs : List α) :
    ∀ i : Nat, Emit.forRangeFrom (fun (_ : Nat) (x : α) => fmtPrint (text x)) i xs =
      ⟨String.join (xs.map text), [], none⟩ := by
  induction xs with
  | nil => intro i; simp [Emit.forRangeFrom, Emit.skip, join_nil]
  | cons x rest ih =>
    intro i
    simp [Emit.forRangeFrom, Emit.andThen_eq, ih, Emit.fmtPrint_seq, join_cons]

theorem genStmt_var_cons (c : context) (tokPos : Pos) (s : Spec) (rest : List Spec) :
    genStmt c (Stmt.DeclStmt (Decl.GenDecl ⟨tokPos, Token.VAR, s :: rest⟩)) =
      Emit.seq (genStmtSpec c ⟨tokPos, Token.VAR, s :: rest⟩ s)
        (genStmt c (Stmt.DeclStmt (Decl.GenDecl ⟨tokPos, Token.VAR, rest⟩))) := by
  have hrest : Emit.forEach (genStmtSpec c ⟨tokPos, Token.VAR, s :: rest⟩) rest =
      Emit.forEach (genStmtSpec c ⟨tokPos, Token.VAR, rest⟩) rest := by
    congr 1
  simp [genStmt, Emit.forEach, Emit.andThen_eq, hrest]

/-- C11: a local const declaration and a local type declaration print nothing
and make exactly one report, the `parseError` entry that holds the position of
the statement (the `TokPos` of its declaration) and the message
`const not currently supported`, respectively
`local types not currently supported`; the run does not stop, and in a block
the statements after it are generated as usual. -/
theorem local_const_and_type (c : context) (tokPos : Pos) (specs : List Spec)
    (rest : List Stmt) :
    genStmt c (Stmt.DeclStmt (Decl.GenDecl ⟨tokPos, Token.CONST, specs⟩)) =
        ⟨"", [c.fset tokPos ++ ": s%!(EXTRA string=const not currently supported)"], none⟩ ∧
      genStmt c (Stmt.DeclStmt (Decl.GenDecl ⟨tokPos, Token.TYPE, specs⟩)) =
        ⟨"", [c.fset tokPos ++ ": s%!(EXTRA string=local types not currently supported)"],
          none⟩ ∧
      genBlock c (Stmt.DeclStmt (Decl.GenDecl ⟨tokPos, Token.CONST, specs⟩) :: rest) =
        ⟨(genBlock c rest).out,
          (c.fset tokPos ++ ": s%!(EXTRA string=const not currently supported)") ::
            (genBlock c rest).log,
          (genBlock c rest).halt⟩ ∧
      genBlock c (Stmt.DeclStmt (Decl.GenDecl ⟨tokPos, Token.TYPE, specs⟩) :: rest) =
        ⟨(genBlock c rest).out,
          (c.fset tokPos ++ ": s%!(EXTRA string=local types not currently supported)") ::
            (genBlock c rest).log,
          (genBlock c rest).halt⟩ := by
  have hconst : genStmt c (Stmt.DeclStmt (Decl.GenDecl ⟨tokPos, Token.CONST, specs⟩)) =
      ⟨"", [c.fset tokPos ++ ": s%!(EXTRA string=const not currently supported)"], none⟩ := by
    simp [genStmt, parseError, logPrint, String.append_assoc]
  have htype : genStmt c (Stmt.DeclStmt (Decl.GenDecl ⟨tokPos, Token.TYPE, specs⟩)) =
      ⟨"", [c.fset tokPos ++ ": s%!(EXTRA string=local types not currently supported)"],
        none⟩ := by
    simp [genStmt, parseError, logPrint, String.append_assoc]
  refine ⟨hconst, htype, ?_, ?_⟩
  · simp only [genBlock, Emit.andThen_eq, hconst]
    simp [Emit.seq]
  · simp only [genBlock, Emit.andThen_eq, htype]
    simp [Emit.seq]

/-- C12: in a local var declaration the specs are handled one after the other.
A spec with no initializer and names `n_1..n_N` prints exactly the `N` lines
`T n_i;` in name order and reports nothing; a spec whose initializer count is
neither 0 nor the number of names prints nothing and makes exactly one report;
in both cases the specs after it are handled next, and the handling of the specs
`pre ++ post` is that of `pre` followed by that of `post`. -/
theorem local_var_specs (c : context) (tokPos : Pos) :
    (∀ (names : List Ident) (typ : Option TypeExpr) (rest : List Spec),
      genStmt c (Stmt.DeclStmt (Decl.GenDecl
          ⟨tokPos, Token.VAR, Spec.ValueSpec ⟨names, typ, []⟩ :: rest⟩)) =
        ⟨String.join (names.map fun n => fmtV typ ++ " " ++ n.Name ++ ";\n") ++
            (genStmt c (Stmt.DeclStmt (Decl.GenDecl ⟨tokPos, Token.VAR, rest⟩))).out,
          (genStmt c (Stmt.DeclStmt (Decl.GenDecl ⟨tokPos, Token.VAR, rest⟩))).log,
          (genStmt c (Stmt.DeclStmt (Decl.GenDecl ⟨tokPos, Token.VAR, rest⟩))).halt⟩) ∧
      (∀ (value : ValueSpec) (rest : List Spec),
        value.Values.length ≠ 0 → value.Values.length ≠ value.Names.length →
        genStmt c (Stmt.DeclStmt (Decl.GenDecl
            ⟨tokPos, Token.VAR, Spec.ValueSpec value :: rest⟩)) =
          ⟨(genStmt c (Stmt.DeclStmt (Decl.GenDecl ⟨tokPos, Token.VAR, rest⟩))).out,
            (c.fset tokPos ++ ": s%!(EXTRA string=assignment count mismatch)") ::
              (genStmt c (Stmt.DeclStmt (Decl.GenDecl ⟨tokPos, Token.VAR, rest⟩))).log,
            (genStmt c (Stmt.DeclStmt (Decl.GenDecl ⟨tokPos, Token.VAR, rest⟩))).halt⟩) ∧
      (∀ pre post : List Spec,
        genStmt c (Stmt.DeclStmt (Decl.GenDecl ⟨tokPos, Token.VAR, pre ++ post⟩)) =
          (genStmt c (Stmt.DeclStmt (Decl.GenDecl ⟨tokPos, Token.VAR, pre⟩)) >>
            genStmt c (Stmt.DeclStmt (Decl.GenDecl ⟨tokPos, Token.VAR, post⟩)))) := by
  refine ⟨fun names typ rest => ?_, fun value rest hzero hne => ?_, fun pre post => ?_⟩
  · rw [genStmt_var_cons]
    simp [genStmtSpec, Emit.forRange, forRangeFrom_fmtPrint, Emit.seq]
  · rw [genStmt_var_cons]
    simp [genStmtSpec, hzero, hne, parseError, logPrint, Emit.seq, String.append_assoc]
  · induction pre with
    | nil =>
      simp [Emit.andThen_eq, genStmt, Emit.forEach, Emit.skip_seq]
    | cons s more ih =>
      rw [List.cons_append, genStmt_var_cons, genStmt_var_cons c tokPos s more, ih,
        Emit.andThen_eq, Emit.andThen_eq, Emit.seq_assoc]
      congr 1

/-- C12 at `var ( a, b int = 1; c int )`: the first spec is reported and
skipped, the second is emitted. -/
theorem local_var_specs_witness :
    [Expr.BasicLit 20 Token.INT "1"].length ≠ 0 ∧
      [Expr.BasicLit 20 Token.INT "1"].length ≠ [(⟨9, "a"⟩ : Ident), ⟨12, "b"⟩].length ∧
      genStmt sampleContext localVarSkip =
        ⟨"int c;\n", ["test/var.glc:3: s%!(EXTRA string=assignment count mismatch)"], none⟩ :=
  ⟨by decide, by decide,
    (local_var_specs sampleContext 3).2.1
      ⟨[⟨9, "a"⟩, ⟨12, "b"⟩], some intType, [Expr.BasicLit 20 Token.INT "1"]⟩
      [Spec.ValueSpec ⟨[⟨23, "c"⟩], some intType, []⟩] (by decide) (by decide)⟩

/-! ## Expressions -/

theorem genArgs_out (c : context) (args : List Expr) :
    (genArgs c args).out = String.join (args.map fun a => (genExpr c a).out) := by
  induction args with
  | nil => simp [genArgs, Emit.skip, join_nil]
  | cons a rest ih =>
    simp [genArgs, Emit.andThen_eq, Emit.seq_out (genExpr_halt c a), ih, join_cons]

/-- C13: a call with callee `f` and arguments `args` renders as the rendering
of `f`, `(`, the renderings of the arguments in order with nothing between
them, and `)`; with no arguments that is the rendering of `f` and `()`. -/
theorem call_expression (c : context) (f : Expr) (args : List Expr) :
    (genExpr c (Expr.CallExpr f args)).out =
        (genExpr c f).out ++ "(" ++ String.join (args.map fun a => (genExpr c a).out) ++ ")" ∧
      (genExpr c (Expr.CallExpr f [])).out = (genExpr c f).out ++ "()" ∧
      (∀ a b : Expr, (genExpr c (Expr.CallExpr f [a, b])).out =
        (genExpr c f).out ++ "(" ++ (genExpr c a).out ++ (genExpr c b).out ++ ")") := by
  have hgen : ∀ xs : List Expr, (genExpr c (Expr.CallExpr f xs)).out =
      (genExpr c f).out ++ "(" ++ String.join (xs.map fun a => (genExpr c a).out) ++ ")" := by
    intro xs
    simp [genExpr, Emit.andThen_eq, Emit.seq, genExpr_halt c f, genArgs_halt c xs, fmtPrint,
      genArgs_out, String.append_assoc]
  refine ⟨hgen args, ?_, fun a b => ?_⟩
  · rw [hgen]
    simp [join_nil, String.append_assoc]
  · rw [hgen]
    simp [join_cons, join_nil, String.append_assoc]

theorem parenCount_append (a b : String) : parenCount (a ++ b) = parenCount a + parenCount b := by
  simp only [parenCount, String.data_append, List.count_append]
  omega

theorem parenCount_join (xs : List String) :
    parenCount (String.join xs) = (xs.map parenCount).sum := by
  induction xs with
  | nil => simp [join_nil, parenCount]
  | cons x rest ih => simp [join_cons, parenCount_append, ih]

theorem parenCount_binaryOp (op : Token) (h : op.isBinaryOp = true) :
    parenCount (" " ++ op.toString ++ " ") = 0 := by
  cases op <;> first | (exact absurd h (by decide)) | decide

theorem plain_rendering (c : context) : ∀ e : Expr, e.plain = true →
    genExpr c e = ⟨String.join e.inorder, [], none⟩ ∧
      parenCount (String.join e.inorder) = (e.leaves.map parenCount).sum
  | .BasicLit _ kind value, h => by
    simp only [Expr.plain, decide_eq_true_eq] at h
    rcases h with h | h | h | h <;> subst h <;>
      simp [genExpr, fmtPrint, Expr.inorder, Expr.leaves, join_cons, join_nil]
  | .Ident _ name, _ => by
    simp [genExpr, fmtPrint, Expr.inorder, Expr.leaves, join_cons, join_nil]
  | .BinaryExpr x op y, h => by
    simp only [Expr.plain, Bool.and_eq_true] at h
    have hx := plain_rendering c x h.1.1
    have hy := plain_rendering c y h.2
    have hop := parenCount_binaryOp op h.1.2
    constructor
    · simp [genExpr, Emit.andThen_eq, hx.1, hy.1, Emit.seq, fmtPrint, Expr.inorder, join_append,
        join_cons, join_nil, String.append_assoc]
    · simp only [Expr.inorder, Expr.leaves, join_append, join_cons, join_nil, parenCount_append,
        List.map_append, List.sum_append, hx.2, hy.2]
      have h0 : parenCount "" = 0 := by decide
      simp only [parenCount_append] at hop
      omega
  | .CallExpr _ _, h => by simp [Expr.plain] at h
  | .other _ _, h => by simp [Expr.plain] at h

/-- C14: a binary expression renders as the rendering of the left operand, a
space, the symbol of the operator, a space and the rendering of the right
operand; an identifier renders as its name and an integer, floating-point,
character or string literal as its text.  So an expression built only from
these renders as its in-order sequence of leaf texts and operator symbols,
reports nothing, and holds exactly the parentheses of its leaf texts. -/
theorem binary_expression (c : context) :
    (∀ (l r : Expr) (op : Token), (genExpr c (Expr.BinaryExpr l op r)).out =
        (genExpr c l).out ++ " " ++ op.toString ++ " " ++ (genExpr c r).out) ∧
      (∀ (p : Pos) (name : String), genExpr c (Expr.Ident p name) = ⟨name, [], none⟩) ∧
      (∀ (p : Pos) (kind : Token) (text : String),
        kind = Token.INT ∨ kind = Token.FLOAT ∨ kind = Token.CHAR ∨ kind = Token.STRING →
        genExpr c (Expr.BasicLit p kind text) = ⟨text, [], none⟩) ∧
      (∀ e : Expr, e.plain = true →
        (genExpr c e).out = String.join e.inorder ∧ (genExpr c e).log = [] ∧
          parenCount (genExpr c e).out = (e.leaves.map parenCount).sum) := by
  refine ⟨fun l r op => ?_, fun p name => ?_, fun p kind text h => ?_, fun e h => ?_⟩
  · simp [genExpr, Emit.andThen_eq, Emit.seq, genExpr_halt c l, fmtPrint, String.append_assoc]
  · simp [genExpr, fmtPrint]
  · rcases h with h | h | h | h <;> subst h <;> simp [genExpr, fmtPrint]
  · have hp := plain_rendering c e h
    rw [hp.1]
    exact ⟨rfl, rfl, hp.2⟩

/-- C14 at `a + b*2`: the text `a + b * 2`, without parentheses. -/
theorem binary_expression_witness :
    sumExpr.plain = true ∧ (genExpr sampleContext sumExpr).out = "a + b * 2" ∧
      parenCount (genExpr sampleContext sumExpr).out = 0 :=
  have h := (binary_expression sampleContext).2.2.2 sumExpr (by decide)
  ⟨by decide, h.1, h.2.2⟩

/-! ## Classification -/

theorem genDecls_cons_badDecl (tok : Token) (rest : List Decl) :
    genDecls tok (Decl.BadDecl :: rest) = genDecls tok rest := by
  simp [genDecls, List.filterMap_cons]

theorem funcDecls_cons_badDecl (rest : List Decl) :
    funcDecls (Decl.BadDecl :: rest) = funcDecls rest := by
  simp [funcDecls, List.filterMap_cons]

theorem genDecls_append (tok : Token) (xs ys : List Decl) :
    genDecls tok (xs ++ ys) = genDecls tok xs ++ genDecls tok ys := by
  simp [genDecls, List.filterMap_append]

theorem funcDecls_append (xs ys : List Decl) :
    funcDecls (xs ++ ys) = funcDecls xs ++ funcDecls ys := by
  simp [funcDecls, List.filterMap_append]

theorem genDecls_map (tok : Token) (decls : List Decl) :
    (genDecls tok decls).map Decl.GenDecl = decls.filter (Decl.isGen tok) := by
  induction decls with
  | nil => simp [genDecls]
  | cons d rest ih =>
    cases d with
    | GenDecl decl =>
      by_cases h : decl.Tok = tok <;>
        simp [genDecls_cons_genDecl, List.filter_cons, Decl.isGen, h, ih]
    | FuncDecl decl => simp [genDecls_cons_funcDecl, List.filter_cons, Decl.isGen, ih]
    | BadDecl => simp [genDecls_cons_badDecl, List.filter_cons, Decl.isGen, ih]

theorem funcDecls_map (decls : List Decl) :
    (funcDecls decls).map Decl.FuncDecl = decls.filter Decl.isFunc := by
  induction decls with
  | nil => simp [funcDecls]
  | cons d rest ih =>
    cases d with
    | GenDecl decl => simp [funcDecls_cons_genDecl, List.filter_cons, Decl.isFunc, ih]
    | FuncDecl decl => simp [funcDecls_cons_funcDecl, List.filter_cons, Decl.isFunc, ih]
    | BadDecl => simp [funcDecls_cons_badDecl, List.filter_cons, Decl.isFunc, ih]

theorem recognized_one_kind (d : Decl) (h : d.recognized = true) :
    (if d.isGen Token.IMPORT then 1 else 0) + (if d.isGen Token.CONST then 1 else 0) +
      (if d.isGen Token.TYPE then 1 else 0) + (if d.isGen Token.VAR then 1 else 0) +
      (if d.isFunc then 1 else 0) = 1 := by
  cases d with
  | GenDecl decl =>
    simp only [Decl.recognized, Decl.isGen, Decl.isFunc, Bool.or_eq_true, decide_eq_true_eq,
      Bool.or_false] at h
    rcases h with ((h | h) | h) | h <;> simp [Decl.isGen, Decl.isFunc, h]
  | FuncDecl decl => simp [Decl.isGen, Decl.isFunc]
  | BadDecl => simp [Decl.recognized, Decl.isGen, Decl.isFunc] at h

theorem filter_lengths (decls : List Decl) (h : ∀ d ∈ decls, d.recognized = true) :
    (decls.filter (Decl.isGen Token.IMPORT)).length +
      (decls.filter (Decl.isGen Token.CONST)).length +
      (decls.filter (Decl.isGen Token.TYPE)).length +
      (decls.filter (Decl.isGen Token.VAR)).length +
      (decls.filter Decl.isFunc).length = decls.length := by
  induction decls with
  | nil => simp
  | cons d rest ih =>
    have hrest := ih (fun x hx => h x (List.mem_cons_of_mem _ hx))
    have hone := recognized_one_kind d (h d (List.mem_cons_self _ _))
    simp only [List.filter_cons, List.length_cons]
    split_ifs at hone ⊢ <;> simp only [List.length_cons] at * <;> omega

theorem recognized_ne_bad (decls : List Decl) (h : ∀ d ∈ decls, d.recognized = true) :
    Decl.BadDecl ∉ decls := by
  intro hmem
  have hbad := h _ hmem
  simp [Decl.recognized, Decl.isGen, Decl.isFunc] at hbad

/-- C15: for every sequence of recognized top-level declarations the
classification loop of `main` ends with five slices, each of which is exactly
the subsequence of the declarations of its kind in their original order; every
declaration is of exactly one of the five kinds, and the five lengths add up to
the length of the input. -/
theorem classification_partitions (decls : List Decl)
    (h : ∀ d ∈ decls, d.recognized = true) :
    ∃ cl : Classified, classify decls ⟨[], [], [], [], []⟩ = some cl ∧
      cl.imports.map Decl.GenDecl = decls.filter (Decl.isGen Token.IMPORT) ∧
      cl.consts.map Decl.GenDecl = decls.filter (Decl.isGen Token.CONST) ∧
      cl.types.map Decl.GenDecl = decls.filter (Decl.isGen Token.TYPE) ∧
      cl.vars.map Decl.GenDecl = decls.filter (Decl.isGen Token.VAR) ∧
      cl.funcs.map Decl.FuncDecl = decls.filter Decl.isFunc ∧
      (∀ d ∈ decls,
        (if d.isGen Token.IMPORT then 1 else 0) + (if d.isGen Token.CONST then 1 else 0) +
          (if d.isGen Token.TYPE then 1 else 0) + (if d.isGen Token.VAR then 1 else 0) +
          (if d.isFunc then 1 else 0) = 1) ∧
      cl.imports.length + cl.consts.length + cl.types.length + cl.vars.length +
        cl.funcs.length = decls.length := by
  refine ⟨_, classify_eq decls _ (recognized_ne_bad decls h), ?_, ?_, ?_, ?_, ?_, ?_, ?_⟩
  · simpa using genDecls_map Token.IMPORT decls
  · simpa using genDecls_map Token.CONST decls
  · simpa using genDecls_map Token.TYPE decls
  · simpa using genDecls_map Token.VAR decls
  · simpa using funcDecls_map decls
  · exact fun d hd => recognized_one_kind d (h d hd)
  · have hlen := filter_lengths decls h
    rw [← genDecls_map, ← genDecls_map, ← genDecls_map, ← genDecls_map, ← funcDecls_map] at hlen
    simpa using hlen

/-- C15 at `func f() {}`, `import "fmt"`, `var x int = 5`, `type T int`,
`var a int = 1, 2`, `const k = 1`. -/
theorem classification_partitions_witness :
    (∀ d ∈ [Decl.FuncDecl emptyFunc, Decl.GenDecl importDecl, Decl.GenDecl varFive,
        Decl.GenDecl typeDecl, Decl.GenDecl varMore, Decl.GenDecl constDecl],
      d.recognized = true) ∧
    ∃ cl : Classified,
      classify [Decl.FuncDecl emptyFunc, Decl.GenDecl importDecl, Decl.GenDecl varFive,
        Decl.GenDecl typeDecl, Decl.GenDecl varMore, Decl.GenDecl constDecl]
        ⟨[], [], [], [], []⟩ = some cl ∧
      cl.vars.map Decl.GenDecl = [Decl.GenDecl varFive, Decl.GenDecl varMore] ∧
      cl.imports.length + cl.consts.length + cl.types.length + cl.vars.length +
        cl.funcs.length = 6 :=
  have hrec : ∀ d ∈ [Decl.FuncDecl emptyFunc, Decl.GenDecl importDecl, Decl.GenDecl varFive,
      Decl.GenDecl typeDecl, Decl.GenDecl varMore, Decl.GenDecl constDecl],
      d.recognized = true := by
    intro d hd
    simp only [List.mem_cons, List.mem_singleton, List.not_mem_nil, or_false] at hd
    rcases hd with h | h | h | h | h | h <;> subst h <;> rfl
  have h := classification_partitions _ hrec
  ⟨hrec, h.elim fun cl hcl => ⟨cl, hcl.1, hcl.2.2.2.2.1, hcl.2.2.2.2.2.2.2⟩⟩

theorem main_of_bad (c : context) (decls : List Decl) (h : Decl.BadDecl ∈ decls) :
    main c decls = ⟨"", ["unknown decl\n"], some Halt.exit⟩ := by
  obtain ⟨pre, post, hsplit⟩ := List.append_of_mem h
  rw [hsplit]
  simp [main, classify_bad, logFatalln]

theorem genDecls_var_unemitted (d : Decl) (h : d.unemitted = true) :
    genDecls Token.VAR [d] = [] ∧ funcDecls [d] = [] ∧ d ≠ Decl.BadDecl := by
  cases d with
  | GenDecl decl =>
    simp only [Decl.unemitted, Decl.isGen, Bool.or_eq_true, decide_eq_true_eq] at h
    refine ⟨?_, by simp [funcDecls], by simp⟩
    rcases h with (h | h) | h <;> simp [genDecls, h]
  | FuncDecl decl => simp [Decl.unemitted, Decl.isGen] at h
  | BadDecl => simp [Decl.unemitted, Decl.isGen] at h

theorem main_drop_unemitted (c : context) (pre post : List Decl) (d : Decl)
    (h : d.unemitted = true) : main c (pre ++ d :: post) = main c (pre ++ post) := by
  have hd := genDecls_var_unemitted d h
  by_cases hbad : Decl.BadDecl ∈ pre ++ post
  · have hbad2 : Decl.BadDecl ∈ pre ++ d :: post := by
      simp only [List.mem_append, List.mem_cons] at hbad ⊢
      tauto
    rw [main_of_bad c _ hbad, main_of_bad c _ hbad2]
  · have hbad2 : Decl.BadDecl ∉ pre ++ d :: post := by
      simp only [List.mem_append, List.mem_cons, not_or] at hbad ⊢
      exact ⟨hbad.1, fun heq => hd.2.2 heq.symm, hbad.2⟩
    have hsplit : pre ++ d :: post = pre ++ ([d] ++ post) := by simp
    rw [main_eq c _ hbad, main_eq c _ hbad2, hsplit]
    simp only [genDecls_append, funcDecls_append, hd.1, hd.2.1, List.nil_append]

theorem filter_unemitted (decls : List Decl) :
    genDecls Token.VAR (decls.filter fun d => !d.unemitted) = genDecls Token.VAR decls ∧
      funcDecls (decls.filter fun d => !d.unemitted) = funcDecls decls ∧
      (Decl.BadDecl ∈ (decls.filter fun d => !d.unemitted) ↔ Decl.BadDecl ∈ decls) := by
  induction decls with
  | nil => simp
  | cons d rest ih =>
    by_cases h : d.unemitted = true
    · have hd := genDecls_var_unemitted d h
      have hsplit : d :: rest = [d] ++ rest := rfl
      have hne : ¬ Decl.BadDecl = d := fun heq => hd.2.2 heq.symm
      simp only [List.filter_cons, h, Bool.not_true, Bool.false_eq_true, if_false, ih,
        List.mem_cons, hne, false_or]
      rw [hsplit, genDecls_append, funcDecls_append, hd.1, hd.2.1]
      simp
    · simp only [Bool.not_eq_true] at h
      have hsplit : ∀ xs : List Decl, d :: xs = [d] ++ xs := fun _ => rfl
      simp only [List.filter_cons, h, Bool.not_false, if_true, List.mem_cons, ih.2.2]
      rw [hsplit, hsplit rest, genDecls_append, funcDecls_append, genDecls_append,
        funcDecls_append, ih.1, ih.2.1]
      simp

theorem main_filter_unemitted (c : context) (decls : List Decl) :
    main c decls = main c (decls.filter fun d => !d.unemitted) := by
  have hf := filter_unemitted decls
  by_cases hbad : Decl.BadDecl ∈ decls
  · rw [main_of_bad c _ hbad, main_of_bad c _ (hf.2.2.mpr hbad)]
  · rw [main_eq c _ hbad, main_eq c _ (fun hb => hbad (hf.2.2.mp hb)), hf.1, hf.2.1]

/-- C20: top-level import, const and type declarations are classified and never
emitted.  Inserting or removing one anywhere in the sequence of top-level
declarations changes neither the output nor the diagnostics nor how the run
ends; a sequence gives the same result as the sequence without all of them;
and two sequences of recognized declarations with the same var declarations
and the same function declarations, in the same orders, give the same
result. -/
theorem unemitted_declarations (c : context) :
    (∀ (pre post : List Decl) (d : Decl), d.unemitted = true →
        main c (pre ++ d :: post) = main c (pre ++ post)) ∧
      (∀ decls : List Decl, main c decls = main c (decls.filter fun d => !d.unemitted)) ∧
      (∀ first second : List Decl,
        (∀ d ∈ first, d.recognized = true) → (∀ d ∈ second, d.recognized = true) →
        first.filter (Decl.isGen Token.VAR) = second.filter (Decl.isGen Token.VAR) →
        first.filter Decl.isFunc = second.filter Decl.isFunc →
        main c first = main c second) := by
  refine ⟨fun pre post d h => main_drop_unemitted c pre post d h,
    fun decls => main_filter_unemitted c decls, fun first second h1 h2 hv hf => ?_⟩
  have hvars : genDecls Token.VAR first = genDecls Token.VAR second := by
    have hmap : (genDecls Token.VAR first).map Decl.GenDecl =
        (genDecls Token.VAR second).map Decl.GenDecl := by
      rw [genDecls_map, genDecls_map, hv]
    exact List.map_injective_iff.mpr (fun a b hab => by injection hab) hmap
  have hfuncs : funcDecls first = funcDecls second := by
    have hmap : (funcDecls first).map Decl.FuncDecl = (funcDecls second).map Decl.FuncDecl := by
      rw [funcDecls_map, funcDecls_map, hf]
    exact List.map_injective_iff.mpr (fun a b hab => by injection hab) hmap
  rw [main_eq c _ (recognized_ne_bad first h1), main_eq c _ (recognized_ne_bad second h2),
    hvars, hfuncs]

/-- C20 at `var x int = 5` and `func f() {}` with an import before, a type
declaration between and a const declaration after them: the result is that of
the two declarations alone. -/
theorem unemitted_declarations_witness :
    Decl.unemitted (Decl.GenDecl typeDecl) = true ∧
      main sampleContext [Decl.GenDecl varFive, Decl.GenDecl typeDecl, Decl.FuncDecl emptyFunc] =
        main sampleContext [Decl.GenDecl varFive, Decl.FuncDecl emptyFunc] ∧
      main sampleContext [Decl.GenDecl importDecl, Decl.GenDecl varFive, Decl.GenDecl typeDecl,
          Decl.FuncDecl emptyFunc, Decl.GenDecl constDecl] =
        ⟨"int x = 5;\nvoid f() \x7b\n\x7d\n", [], none⟩ :=
  ⟨by decide,
    (unemitted_declarations sampleContext).1 [Decl.GenDecl varFive] [Decl.FuncDecl emptyFunc]
      (Decl.GenDecl typeDecl) (by decide),
    ((unemitted_declarations sampleContext).2.1 [Decl.GenDecl importDecl, Decl.GenDecl varFive,
      Decl.GenDecl typeDecl, Decl.FuncDecl emptyFunc, Decl.GenDecl constDecl]).trans (by decide)⟩

/-! ## Assignment operators and return types -/

/-- C19, as stated, fails: `x += 2i` prints `x = ;` and one diagnostic is
reported, for the complex-number literal on its right-hand side. -/
theorem compound_assign_reports_operand :
    genStmt sampleContext assignComplex =
        ⟨"x = ;\n",
          ["test/var.glc:6: s%!(EXTRA string=complex numbers not currently supported)"], none⟩ ∧
      (genStmt sampleContext assignComplex).log ≠ [] := by
  decide

/-- C19, amended: for an assignment with exactly one left-hand expression `l`
and one right-hand expression `r` the result does not depend on the assignment
operator: with `:=` or a compound operator the text and the diagnostics are
those of the plain `=`, the text is the rendering of `l`, ` = `, the rendering
of `r`, `;` and a newline, and the diagnostics are those of rendering `l` and
`r`, so none is reported when rendering `l` and `r` reports none. -/
theorem assign_operator_ignored (c : context) (l r : Expr) (tok : Token) :
    genStmt c (Stmt.AssignStmt [l] tok [r]) = genStmt c (Stmt.AssignStmt [l] Token.ASSIGN [r]) ∧
      genStmt c (Stmt.AssignStmt [l] tok [r]) =
        ⟨(genExpr c l).out ++ " = " ++ (genExpr c r).out ++ ";\n",
          (genExpr c l).log ++ (genExpr c r).log, none⟩ ∧
      ((genExpr c l).log = [] → (genExpr c r).log = [] →
        (genStmt c (Stmt.AssignStmt [l] tok [r])).log = []) := by
  have h : ∀ t : Token, genStmt c (Stmt.AssignStmt [l] t [r]) =
      ⟨(genExpr c l).out ++ " = " ++ (genExpr c r).out ++ ";\n",
        (genExpr c l).log ++ (genExpr c r).log, none⟩ := by
    intro t
    simp [genStmt, Emit.andThen_eq, Emit.seq, genExpr_halt c l, genExpr_halt c r, fmtPrint,
      String.append_assoc]
  refine ⟨by rw [h tok, h Token.ASSIGN], h tok, fun hl hr => ?_⟩
  rw [h tok]
  simp [hl, hr]

/-- C19 at `x := y` and `x += y`: the text of `x = y`, no diagnostic. -/
theorem assign_operator_ignored_witness :
    (genExpr sampleContext (Expr.Ident 1 "x")).log = [] ∧
      (genExpr sampleContext (Expr.Ident 6 "y")).log = [] ∧
      genStmt sampleContext
          (Stmt.AssignStmt [Expr.Ident 1 "x"] Token.DEFINE [Expr.Ident 6 "y"]) =
        ⟨"x = y;\n", [], none⟩ ∧
      (genStmt sampleContext
          (Stmt.AssignStmt [Expr.Ident 1 "x"] Token.ADD_ASSIGN [Expr.Ident 6 "y"])).log = [] :=
  ⟨by decide, by decide,
    (assign_operator_ignored sampleContext (Expr.Ident 1 "x") (Expr.Ident 6 "y")
      Token.DEFINE).2.1,
    (assign_operator_ignored sampleContext (Expr.Ident 1 "x") (Expr.Ident 6 "y")
      Token.ADD_ASSIGN).2.2 (by decide) (by decide)⟩

theorem mainFunc_signature (c : context) (f : FuncDecl) (params : List (String × String))
    (result : String) (hp : collectParams f.Params = some params)
    (hr : firstResult f.Results = some result) :
    ∃ rest : String, (mainFunc c f).out =
      (if result = "" then "void" else result) ++ " " ++ f.Name.Name ++ "(" ++
        (Emit.forRange params fun i p =>
          fmtPrint (p.1 ++ " " ++ p.2 ++ if i ≠ 0 then "," else "")).out ++
        ") \x7b\n" ++ rest := by
  have hloop : (Emit.forRange params fun i p =>
      fmtPrint (p.1 ++ " " ++ p.2 ++ if i ≠ 0 then "," else "")).halt = none :=
    Emit.forRangeFrom_halt_none _ (fun _ _ => rfl) _ _
  refine ⟨((match f.Body with
    | some body => genBlock c body
    | none => goPanic) >> fmtPrint "\x7d\n").out, ?_⟩
  simp only [mainFunc, hp, hr, Emit.andThen_eq]
  rw [Emit.fmtPrint_seq, Emit.seq_out hloop, Emit.fmtPrint_seq]
  simp [String.append_assoc]

/-- C16: when a signature is emitted for a function (its parameter types are
identifiers), it is the line `R name(params) {`, where the return type `R` is
`void` when the function declares no results, and the type name of the first
declared result when that is a (non-empty) identifier. -/
theorem signature_return_type (c : context) (f : FuncDecl) (params : List (String × String))
    (hp : collectParams f.Params = some params) :
    (f.Results = none ∨ f.Results = some [] →
        ∃ rest : String, (mainFunc c f).out =
          "void" ++ " " ++ f.Name.Name ++ "(" ++
            (Emit.forRange params fun i p =>
              fmtPrint (p.1 ++ " " ++ p.2 ++ if i ≠ 0 then "," else "")).out ++
            ") \x7b\n" ++ rest) ∧
      (∀ (names : List Ident) (typeName : String) (more : List Field),
        f.Results = some (⟨names, TypeExpr.Ident typeName⟩ :: more) → typeName ≠ "" →
        ∃ rest : String, (mainFunc c f).out =
          typeName ++ " " ++ f.Name.Name ++ "(" ++
            (Emit.forRange params fun i p =>
              fmtPrint (p.1 ++ " " ++ p.2 ++ if i ≠ 0 then "," else "")).out ++
            ") \x7b\n" ++ rest) := by
  constructor
  · intro hres
    have hr : firstResult f.Results = some "" := by
      rcases hres with h | h <;> simp [h, firstResult]
    simpa using mainFunc_signature c f params "" hp hr
  · intro names typeName more hres hne
    have hr : firstResult f.Results = some typeName := by simp [hres, firstResult]
    simpa [hne] using mainFunc_signature c f params typeName hp hr

/-- C16 at `func f() {}`, with return type `void`, and at
`func twice(n int) int { ... }`, with return type `int`. -/
theorem signature_return_type_witness :
    collectParams emptyFunc.Params = some [] ∧
      (emptyFunc.Results = none ∨ emptyFunc.Results = some []) ∧
      (∃ rest : String, (mainFunc sampleContext emptyFunc).out =
        "void" ++ " " ++ "f" ++ "(" ++ "" ++ ") \x7b\n" ++ rest) ∧
      collectParams twiceFunc.Params = some [("int", "n")] ∧
      twiceFunc.Results = some (⟨[], TypeExpr.Ident "int"⟩ :: []) ∧ "int" ≠ "" ∧
      (∃ rest : String, (mainFunc sampleContext twiceFunc).out =
        "int" ++ " " ++ "twice" ++ "(" ++ "int n" ++ ") \x7b\n" ++ rest) :=
  ⟨by decide, Or.inl rfl,
    (signature_return_type sampleContext emptyFunc [] (by decide)).1 (Or.inl rfl),
    by decide, rfl, by decide,
    (signature_return_type sampleContext twiceFunc [("int", "n")] (by decide)).2
      [] "int" [] rfl (by decide)⟩

/-! ## Run-time safety -/

theorem Emit.forEach_halt_none {α : Type} (body : α → Emit) (xs : List α)
    (h : ∀ x ∈ xs, (body x).halt = none) : (Emit.forEach body xs).halt = none := by
  induction xs with
  | nil => simp [Emit.forEach, Emit.skip]
  | cons x rest ih =>
    simp only [Emit.forEach, Emit.andThen_eq]
    exact Emit.seq_halt_eq_none.mpr
      ⟨h x (List.mem_cons_self _ _), ih (fun y hy => h y (List.mem_cons_of_mem _ hy))⟩

theorem basicLits_eq_map (values : List Expr) (h : values.all Expr.isBasicLit = true) :
    ∃ lits : List (Pos × Token × String),
      values = lits.map (fun l => Expr.BasicLit l.1 l.2.1 l.2.2) := by
  induction values with
  | nil => exact ⟨[], rfl⟩
  | cons v rest ih =>
    simp only [List.all_cons, Bool.and_eq_true] at h
    obtain ⟨lits, hl⟩ := ih h.2
    cases v with
    | BasicLit p kind text => exact ⟨(p, kind, text) :: lits, by simp [hl]⟩
    | Ident _ _ => simp [Expr.isBasicLit] at h
    | BinaryExpr _ _ _ => simp [Expr.isBasicLit] at h
    | CallExpr _ _ => simp [Expr.isBasicLit] at h
    | other _ _ => simp [Expr.isBasicLit] at h

theorem printInitialized_halt (value : ValueSpec)
    (hlen : value.Values.length = value.Names.length)
    (hlit : value.Values.all Expr.isBasicLit = true) :
    (Emit.forRange value.Names (printInitialized value)).halt = none := by
  obtain ⟨lits, hl⟩ := basicLits_eq_map value.Values hlit
  have hn : value.Names.length = lits.length := by
    rw [← hlen, hl, List.length_map]
  have h := printInitialized_literals value value.Names lits [] hn (by simp [hl])
  simp only [List.length_nil] at h
  simp [Emit.forRange, h]

theorem genStmtSpec_halt (c : context) (gendecl : GenDecl) (s : Spec)
    (h : s.localSafe = true) : (genStmtSpec c gendecl s).halt = none := by
  cases s with
  | ImportSpec => simp [Spec.localSafe] at h
  | TypeSpec => simp [Spec.localSafe] at h
  | ValueSpec value =>
    simp only [Spec.localSafe] at h
    by_cases hzero : value.Values.length = 0
    · simp [genStmtSpec, hzero, Emit.forRange, forRangeFrom_fmtPrint]
    · by_cases hne : value.Values.length = value.Names.length
      · have hsame : ¬ (value.Values.length ≠ value.Names.length) := fun hx => hx hne
        simp only [genStmtSpec]
        rw [if_neg hzero, if_neg hsame]
        exact printInitialized_halt value hne h
      · simp [genStmtSpec, hzero, hne, parseError, logPrint]

theorem mainSpec_halt (s : Spec) (h : s.globalSafe = true) : (mainSpec s).halt = none := by
  cases s with
  | ImportSpec => simp [Spec.globalSafe] at h
  | TypeSpec => simp [Spec.globalSafe] at h
  | ValueSpec value =>
    simp only [Spec.globalSafe, Bool.and_eq_true, decide_eq_true_eq] at h
    simp only [mainSpec]
    exact printInitialized_halt value h.1 h.2

mutual
theorem genStmt_halt (c : context) :
    ∀ s : Stmt, s.safe = true → (genStmt c s).halt = none
  | .BlockStmt list, h => by
    simp only [Stmt.safe] at h
    simp [genStmt, Emit.andThen_eq, Emit.seq_halt_eq_none, fmtPrint, genBlock_halt c list h]
  | .DeclStmt (.GenDecl decl), h => by
    simp only [Stmt.safe, Bool.or_eq_true, decide_eq_true_eq, List.all_eq_true] at h
    simp only [genStmt]
    split
    · simp [parseError, logPrint]
    · simp [parseError, logPrint]
    · rename_i hvar
      rcases h with h | h
      · exact absurd hvar h
      · exact Emit.forEach_halt_none _ _ (fun x hx => genStmtSpec_halt c decl x (h x hx))
    · simp [Emit.skip]
  | .DeclStmt (.FuncDecl _), h => by simp [Stmt.safe] at h
  | .DeclStmt .BadDecl, h => by simp [Stmt.safe] at h
  | .ExprStmt x, _ => by
    simp [genStmt, Emit.andThen_eq, Emit.seq_halt_eq_none, genExpr_halt c x, fmtPrint]
  | .IfStmt cond body none, h => by
    simp only [Stmt.safe, Bool.and_true] at h
    simp [genStmt, Emit.andThen_eq, Emit.seq_halt_eq_none, genExpr_halt c cond, fmtPrint,
      genBlock_halt c body h]
  | .IfStmt cond body (some els), h => by
    simp only [Stmt.safe, Bool.and_eq_true] at h
    simp [genStmt, Emit.andThen_eq, Emit.seq_halt_eq_none, genExpr_halt c cond, fmtPrint,
      genBlock_halt c body h.1, genStmt_halt c els h.2]
  | .ReturnStmt _ [], _ => by simp [genStmt, fmtPrint]
  | .ReturnStmt _ [e], _ => by
    simp [genStmt, Emit.andThen_eq, Emit.seq_halt_eq_none, genExpr_halt c e, fmtPrint]
  | .ReturnStmt _ (_ :: _ :: _), _ => by simp [genStmt, parseError, logPrint]
  | .AssignStmt [] _ _, h => by simp [Stmt.safe] at h
  | .AssignStmt (_ :: _) _ [], h => by simp [Stmt.safe] at h
  | .AssignStmt [l] _ [r], _ => by
    simp [genStmt, Emit.andThen_eq, Emit.seq_halt_eq_none, genExpr_halt c l, genExpr_halt c r,
      fmtPrint]
  | .AssignStmt [_] _ (_ :: _ :: _), _ => by simp [genStmt, parseError, logPrint]
  | .AssignStmt (_ :: _ :: _) _ (_ :: _), _ => by simp [genStmt, parseError, logPrint]
  | .other _, _ => by simp [genStmt, fmtPrint]
theorem genBlock_halt (c : context) :
    ∀ list : List Stmt, Stmt.safeList list = true → (genBlock c list).halt = none
  | [], _ => by simp [genBlock, Emit.skip]
  | stmt :: rest, h => by
    simp only [Stmt.safeList, Bool.and_eq_true] at h
    simp [genBlock, Emit.andThen_eq, Emit.seq_halt_eq_none, genStmt_halt c stmt h.1,
      genBlock_halt c rest h.2]
end

theorem collectParams_isSome (params : List Field)
    (h : params.all (fun p => p.Typ.isIdent) = true) :
    ∃ ps : List (String × String), collectParams params = some ps := by
  induction params with
  | nil => exact ⟨[], rfl⟩
  | cons p rest ih =>
    simp only [List.all_cons, Bool.and_eq_true] at h
    obtain ⟨ps, hps⟩ := ih h.2
    rcases p with ⟨names, typ⟩
    cases typ with
    | Ident name =>
      exact ⟨names.map (fun n => (name, n.Name)) ++ ps, by simp [collectParams, hps]⟩
    | other text => simp [TypeExpr.isIdent] at h

theorem firstResult_isSome (results : Option (List Field))
    (h : (match results with
      | some rs => rs.all (fun p => p.Typ.isIdent)
      | none => true) = true) :
    ∃ r : String, firstResult results = some r := by
  cases results with
  | none => exact ⟨"", rfl⟩
  | some rs =>
    cases rs with
    | nil => exact ⟨"", rfl⟩
    | cons p rest =>
      simp only [List.all_cons, Bool.and_eq_true] at h
      rcases p with ⟨names, typ⟩
      cases typ with
      | Ident name => exact ⟨name, by simp [firstResult]⟩
      | other text => simp [TypeExpr.isIdent] at h

theorem mainFunc_halt (c : context) (f : FuncDecl) (h : f.safe = true) :
    (mainFunc c f).halt = none := by
  rcases f with ⟨name, params, results, body⟩
  simp only [FuncDecl.safe, FuncDecl.Params, FuncDecl.Results, FuncDecl.Body,
    Bool.and_eq_true] at h
  obtain ⟨ps, hps⟩ := collectParams_isSome params h.1.1
  obtain ⟨r, hr⟩ := firstResult_isSome results h.1.2
  cases body with
  | none => simp at h
  | some stmts =>
    have hbody := genBlock_halt c stmts h.2
    have hloop : (Emit.forRange ps fun i p =>
        fmtPrint (p.1 ++ " " ++ p.2 ++ if i ≠ 0 then "," else "")).halt = none :=
      Emit.forRangeFrom_halt_none _ (fun _ _ => rfl) _ _
    simp only [mainFunc, FuncDecl.Params, FuncDecl.Results, FuncDecl.Body, hps, hr,
      Emit.andThen_eq, Emit.seq_halt_eq_none]
    exact ⟨rfl, hloop, rfl, hbody, rfl⟩

theorem mem_genDecls (tok : Token) (decls : List Decl) (v : GenDecl)
    (h : v ∈ genDecls tok decls) : Decl.GenDecl v ∈ decls ∧ v.Tok = tok := by
  have hm : Decl.GenDecl v ∈ (genDecls tok decls).map Decl.GenDecl := List.mem_map_of_mem _ h
  rw [genDecls_map, List.mem_filter] at hm
  exact ⟨hm.1, by simpa [Decl.isGen] using hm.2⟩

theorem mem_funcDecls (decls : List Decl) (f : FuncDecl) (h : f ∈ funcDecls decls) :
    Decl.FuncDecl f ∈ decls := by
  have hm : Decl.FuncDecl f ∈ (funcDecls decls).map Decl.FuncDecl := List.mem_map_of_mem _ h
  rw [funcDecls_map, List.mem_filter] at hm
  exact hm.1

theorem main_halt_of_safe (c : context) (decls : List Decl) (h : ∀ d ∈ decls, d.safe = true)
    (hbad : Decl.BadDecl ∉ decls) : (main c decls).halt = none := by
  rw [main_eq c decls hbad, Emit.seq_halt_eq_none]
  constructor
  · refine Emit.forEach_halt_none _ _ (fun v hv => ?_)
    have hm := mem_genDecls _ _ _ hv
    have hs := h _ hm.1
    simp only [Decl.safe, hm.2, ne_eq, not_true_eq_false, decide_False, Bool.false_or,
      List.all_eq_true] at hs
    exact Emit.forEach_halt_none _ _ (fun s hsm => mainSpec_halt s (hs s hsm))
  · refine Emit.forEach_halt_none _ _ (fun f hf => ?_)
    exact mainFunc_halt c f (h _ (mem_funcDecls _ _ hf))

/-- C17: on a tree in which every function has a body and identifier parameter
and result types, every top-level var spec has exactly one basic-literal
initializer per name, every local var spec has no or only basic-literal
initializers and every assignment has at least one expression on each side,
generation never panics: it runs to completion, or stops with the fatal
`unknown decl` when there is a top-level node of unknown kind.  Outside these
preconditions it can panic without reporting anything: on a top-level
`var x int = y`, on a local `var y int = a + b`, and on an assignment with an
empty right-hand side. -/
theorem generation_safety (c : context) :
    (∀ decls : List Decl, (∀ d ∈ decls, d.safe = true) →
        (main c decls).halt ≠ some Halt.panicked ∧
          (Decl.BadDecl ∉ decls → (main c decls).halt = none)) ∧
      main c [Decl.GenDecl varIdent] = ⟨"", [], some Halt.panicked⟩ ∧
      genStmt c localVarSum = ⟨"", [], some Halt.panicked⟩ ∧
      genStmt c assignNoValue = ⟨"a = ", [], some Halt.panicked⟩ := by
  refine ⟨fun decls h => ⟨?_, main_halt_of_safe c decls h⟩, rfl, rfl, rfl⟩
  by_cases hbad : Decl.BadDecl ∈ decls
  · rw [main_of_bad c decls hbad]
    simp
  · rw [main_halt_of_safe c decls h hbad]
    simp

/-- C17 at `var x int = 5` followed by
`func twice(n int) int { var r int; r = n + n; return r }`. -/
theorem generation_safety_witness :
    (∀ d ∈ [Decl.GenDecl varFive, Decl.FuncDecl twiceFunc], d.safe = true) ∧
      Decl.BadDecl ∉ [Decl.GenDecl varFive, Decl.FuncDecl twiceFunc] ∧
      (main sampleContext [Decl.GenDecl varFive, Decl.FuncDecl twiceFunc]).halt = none :=
  have hsafe : ∀ d ∈ [Decl.GenDecl varFive, Decl.FuncDecl twiceFunc], d.safe = true := by
    intro d hd
    simp only [List.mem_cons, List.mem_singleton, List.not_mem_nil, or_false] at hd
    rcases hd with h | h <;> subst h <;> decide
  ⟨hsafe, by simp,
    ((generation_safety sampleContext).1 [Decl.GenDecl varFive, Decl.FuncDecl twiceFunc]
      hsafe).2 (by simp)⟩

/-! ## Braces -/

theorem braceDepth_append (a b : List Char) :
    ∀ d : Nat, braceDepth d (a ++ b) = (braceDepth d a).bind fun k => braceDepth k b := by
  induction a with
  | nil => intro d; simp [braceDepth]
  | cons ch rest ih =>
    intro d
    simp only [List.cons_append, braceDepth]
    split
    · exact ih _
    · split
      · cases d with
        | zero => simp
        | succ k => exact ih _
      · exact ih _

theorem braceDepth_free (l : List Char)
    (h : (l.all fun ch => ch != '\x7b' && ch != '\x7d') = true) :
    ∀ d : Nat, braceDepth d l = some d := by
  induction l with
  | nil => intro d; simp [braceDepth]
  | cons ch rest ih =>
    intro d
    simp only [List.all_cons, Bool.and_eq_true, bne_iff_ne, ne_eq] at h
    simp only [braceDepth, h.1.1, h.1.2, if_false]
    exact ih (by simpa using h.2) d

theorem braceFree_append (a b : String) :
    braceFree (a ++ b) = (braceFree a && braceFree b) := by
  simp [braceFree, String.data_append, List.all_append]

theorem braceDepth_counts (l : List Char) :
    ∀ d k : Nat, braceDepth d l = some k →
      k + l.count '\x7d' = d + l.count '\x7b' ∧
        ∀ n : Nat, (l.take n).count '\x7d' ≤ d + (l.take n).count '\x7b' := by
  induction l with
  | nil =>
    intro d k h
    simp only [braceDepth, Option.some.injEq] at h
    simp [h]
  | cons ch rest ih =>
    intro d k h
    simp only [braceDepth] at h
    by_cases hopen : ch = '\x7b'
    · simp only [hopen, if_true] at h
      have hrec := ih (d + 1) k h
      subst hopen
      refine ⟨by simp [List.count_cons]; omega, fun n => ?_⟩
      cases n with
      | zero => simp
      | succ m =>
        have hm := hrec.2 m
        simp [List.take_succ_cons, List.count_cons]
        omega
    · simp only [hopen, if_false] at h
      by_cases hclose : ch = '\x7d'
      · simp only [hclose, if_true] at h
        cases d with
        | zero => simp at h
        | succ j =>
          simp only at h
          have hrec := ih j k h
          subst hclose
          refine ⟨by simp [List.count_cons]; omega, fun n => ?_⟩
          cases n with
          | zero => simp
          | succ m =>
            have hm := hrec.2 m
            simp [List.take_succ_cons, List.count_cons]
            omega
      · simp only [hclose, if_false] at h
        have hrec := ih d k h
        have h1 : ¬ ('\x7b' = ch) := fun hx => hopen hx.symm
        have h2 : ¬ ('\x7d' = ch) := fun hx => hclose hx.symm
        refine ⟨by simpa [List.count_cons, hopen, hclose, h1, h2] using hrec.1, fun n => ?_⟩
        cases n with
        | zero => simp
        | succ m =>
          have hm := hrec.2 m
          simpa [List.take_succ_cons, List.count_cons, hopen, hclose, h1, h2] using hm

theorem Emit.nests_of_free (e : Emit) (h : braceFree e.out = true) : e.Nests := by
  intro d
  exact ⟨0, by simpa using braceDepth_free _ h d, fun _ => rfl⟩

theorem Emit.nests_skip : Emit.skip.Nests :=
  Emit.nests_of_free _ (by decide)

theorem Emit.nests_goPanic : goPanic.Nests :=
  Emit.nests_of_free _ (by decide)

theorem Emit.nests_fmtPrint (s : String) (h : braceFree s = true) : (fmtPrint s).Nests :=
  Emit.nests_of_free _ h

theorem Emit.nests_parseError (c : context) (pos : Pos) (s : String) :
    (parseError c pos s).Nests :=
  Emit.nests_of_free _ (by simp [parseError, logPrint, braceFree])

theorem Emit.nests_seq {a b : Emit} (ha : a.Nests) (hb : b.Nests) : (Emit.seq a b).Nests := by
  intro d
  obtain ⟨k, hk, hk0⟩ := ha d
  cases hhalt : a.halt with
  | some x =>
    rw [Emit.seq_of_halt_some hhalt]
    exact ⟨k, hk, fun hn => by simp [hhalt] at hn⟩
  | none =>
    have hzero := hk0 hhalt
    subst hzero
    obtain ⟨j, hj, hj0⟩ := hb d
    refine ⟨j, ?_, fun hn => hj0 ((Emit.seq_halt_eq_none.mp hn).2)⟩
    rw [Emit.seq_out hhalt, String.data_append, braceDepth_append]
    simpa [hk] using hj

theorem Emit.nests_wrap {body rest : Emit} (opener closer : String)
    (hopen : ∀ d, braceDepth d opener.data = some (d + 1))
    (hclose : ∀ d, braceDepth (d + 1) closer.data = some d)
    (hbody : body.Nests) (hrest : rest.Nests) :
    (Emit.seq (fmtPrint opener) (Emit.seq body (Emit.seq (fmtPrint closer) rest))).Nests := by
  intro d
  obtain ⟨k, hk, hk0⟩ := hbody (d + 1)
  cases hhalt : body.halt with
  | some x =>
    refine ⟨1 + k, ?_, fun hn => ?_⟩
    · rw [Emit.fmtPrint_seq, Emit.seq_of_halt_some hhalt]
      simp only [String.data_append, braceDepth_append, hopen, Option.some_bind, hk]
      congr 1
      omega
    · rw [Emit.fmtPrint_seq, Emit.seq_of_halt_some hhalt] at hn
      simp [hhalt] at hn
  | none =>
    have hzero := hk0 hhalt
    subst hzero
    obtain ⟨j, hj, hj0⟩ := hrest d
    refine ⟨j, ?_, fun hn => ?_⟩
    · rw [Emit.fmtPrint_seq, Emit.seq_out hhalt, Emit.fmtPrint_seq]
      simp only [String.data_append, braceDepth_append, hopen, Option.some_bind]
      simpa [hk, hclose] using hj
    · apply hj0
      rw [Emit.fmtPrint_seq, Emit.seq_of_halt_none hhalt, Emit.fmtPrint_seq] at hn
      simpa using hn

theorem Emit.nests_wrap_last {body : Emit} (opener closer : String)
    (hopen : ∀ d, braceDepth d opener.data = some (d + 1))
    (hclose : ∀ d, braceDepth (d + 1) closer.data = some d)
    (hbody : body.Nests) :
    (Emit.seq (fmtPrint opener) (Emit.seq body (fmtPrint closer))).Nests := by
  have h := Emit.nests_wrap opener closer hopen hclose hbody Emit.nests_skip
  rwa [Emit.seq_skip] at h

theorem Emit.nests_forEach {α : Type} (body : α → Emit) (xs : List α)
    (h : ∀ x ∈ xs, (body x).Nests) : (Emit.forEach body xs).Nests := by
  induction xs with
  | nil => exact Emit.nests_skip
  | cons x rest ih =>
    simp only [Emit.forEach, Emit.andThen_eq]
    exact Emit.nests_seq (h x (List.mem_cons_self _ _))
      (ih (fun y hy => h y (List.mem_cons_of_mem _ hy)))

theorem Emit.nests_forRangeFrom {α : Type} (body : Nat → α → Emit) (xs : List α)
    (h : ∀ i, ∀ x ∈ xs, (body i x).Nests) : ∀ i : Nat, (Emit.forRangeFrom body i xs).Nests := by
  induction xs with
  | nil => intro i; exact Emit.nests_skip
  | cons x rest ih =>
    intro i
    simp only [Emit.forRangeFrom, Emit.andThen_eq]
    exact Emit.nests_seq (h i x (List.mem_cons_self _ _))
      (ih (fun j y hy => h j y (List.mem_cons_of_mem _ hy)) (i + 1))

theorem braceFree_binaryOp (op : Token) (h : op.isBinaryOp = true) :
    braceFree (" " ++ op.toString ++ " ") = true := by
  cases op <;> first | (exact absurd h (by decide)) | decide

mutual
theorem genExpr_nests (c : context) : ∀ e : Expr, e.clean = true → (genExpr c e).Nests
  | .BasicLit _ kind value, h => by
    simp only [Expr.clean] at h
    cases kind <;>
      first
        | exact Emit.nests_fmtPrint _ h
        | exact Emit.nests_parseError _ _ _
        | exact Emit.nests_skip
  | .Ident _ name, h => by
    simp only [Expr.clean] at h
    exact Emit.nests_fmtPrint _ h
  | .BinaryExpr x op y, h => by
    simp only [Expr.clean, Bool.and_eq_true] at h
    simp only [genExpr, Emit.andThen_eq]
    exact Emit.nests_seq (genExpr_nests c x h.1.1)
      (Emit.nests_seq (Emit.nests_fmtPrint _ (braceFree_binaryOp op h.1.2))
        (genExpr_nests c y h.2))
  | .CallExpr f args, h => by
    simp only [Expr.clean, Bool.and_eq_true] at h
    simp only [genExpr, Emit.andThen_eq]
    exact Emit.nests_seq (genExpr_nests c f h.1)
      (Emit.nests_seq (Emit.nests_fmtPrint _ (by decide))
        (Emit.nests_seq (genArgs_nests c args h.2) (Emit.nests_fmtPrint _ (by decide))))
  | .other _ _, h => by simp [Expr.clean] at h
theorem genArgs_nests (c : context) :
    ∀ es : List Expr, Expr.cleanList es = true → (genArgs c es).Nests
  | [], _ => Emit.nests_skip
  | a :: rest, h => by
    simp only [Expr.cleanList, Bool.and_eq_true] at h
    simp only [genArgs, Emit.andThen_eq]
    exact Emit.nests_seq (genExpr_nests c a h.1) (genArgs_nests c rest h.2)
end

theorem cleanList_mem (es : List Expr) (h : Expr.cleanList es = true) :
    ∀ e ∈ es, e.clean = true := by
  induction es with
  | nil => intro e he; simp at he
  | cons x rest ih =>
    simp only [Expr.cleanList, Bool.and_eq_true] at h
    intro e he
    rcases List.mem_cons.mp he with heq | hmem
    · exact heq ▸ h.1
    · exact ih h.2 e hmem

theorem braceFree_line (typ name : String) (ht : braceFree typ = true)
    (hn : braceFree name = true) : braceFree (typ ++ " " ++ name ++ ";\n") = true := by
  have h1 : braceFree " " = true := by decide
  have h2 : braceFree ";\n" = true := by decide
  simp [braceFree_append, ht, hn, h1, h2]

theorem braceFree_initLine (typ name lit : String) (ht : braceFree typ = true)
    (hn : braceFree name = true) (hl : braceFree lit = true) :
    braceFree (typ ++ " " ++ name ++ " = " ++ lit ++ ";\n") = true := by
  have h1 : braceFree " " = true := by decide
  have h2 : braceFree ";\n" = true := by decide
  have h3 : braceFree " = " = true := by decide
  simp [braceFree_append, ht, hn, hl, h1, h2, h3]

theorem printInitialized_nests (value : ValueSpec) (i : Nat) (name : Ident)
    (ht : braceFree (fmtV value.Typ) = true) (hv : Expr.cleanList value.Values = true)
    (hn : braceFree name.Name = true) : (printInitialized value i name).Nests := by
  unfold printInitialized
  split
  · rename_i p kind lit heq
    have hmem : Expr.BasicLit p kind lit ∈ value.Values := List.getElem?_mem heq
    have hlit := cleanList_mem _ hv _ hmem
    simp only [Expr.clean] at hlit
    exact Emit.nests_fmtPrint _ (braceFree_initLine _ _ _ ht hn hlit)
  · exact Emit.nests_goPanic

theorem genStmtSpec_nests (c : context) (gendecl : GenDecl) (s : Spec) (h : s.clean = true) :
    (genStmtSpec c gendecl s).Nests := by
  cases s with
  | ImportSpec => simp [Spec.clean] at h
  | TypeSpec => simp [Spec.clean] at h
  | ValueSpec value =>
    simp only [Spec.clean, Bool.and_eq_true, List.all_eq_true] at h
    simp only [genStmtSpec]
    split
    · exact Emit.nests_forRangeFrom _ _
        (fun _ x hx => Emit.nests_fmtPrint _ (braceFree_line _ _ h.1.1 (h.1.2 x hx))) 0
    · split
      · exact Emit.nests_parseError _ _ _
      · exact Emit.nests_forRangeFrom _ _
          (fun i x hx => printInitialized_nests value i x h.1.1 h.2 (h.1.2 x hx)) 0

mutual
theorem genStmt_nests (c : context) : ∀ s : Stmt, s.clean = true → (genStmt c s).Nests
  | .BlockStmt list, h => by
    simp only [Stmt.clean] at h
    simp only [genStmt, Emit.andThen_eq]
    exact Emit.nests_wrap_last "\x7b\n" "\x7d\n" (fun _ => rfl) (fun _ => rfl)
      (genBlock_nests c list h)
  | .DeclStmt (.GenDecl decl), h => by
    simp only [Stmt.clean, Bool.or_eq_true, decide_eq_true_eq, List.all_eq_true] at h
    simp only [genStmt]
    split
    · exact Emit.nests_parseError _ _ _
    · exact Emit.nests_parseError _ _ _
    · rename_i hvar
      rcases h with h | h
      · exact absurd hvar h
      · exact Emit.nests_forEach _ _ (fun x hx => genStmtSpec_nests c decl x (h x hx))
    · exact Emit.nests_skip
  | .DeclStmt (.FuncDecl _), h => by simp [Stmt.clean] at h
  | .DeclStmt .BadDecl, h => by simp [Stmt.clean] at h
  | .ExprStmt x, h => by
    simp only [Stmt.clean] at h
    simp only [genStmt, Emit.andThen_eq]
    exact Emit.nests_seq (genExpr_nests c x h) (Emit.nests_fmtPrint _ (by decide))
  | .IfStmt cond body none, h => by
    simp only [Stmt.clean, Bool.and_eq_true, and_true] at h
    simp only [genStmt, Emit.andThen_eq]
    exact Emit.nests_seq (Emit.nests_fmtPrint _ (by decide))
      (Emit.nests_seq (genExpr_nests c cond h.1)
        (Emit.nests_wrap_last ") \x7b\n" "\x7d\n" (fun _ => rfl) (fun _ => rfl)
          (genBlock_nests c body h.2)))
  | .IfStmt cond body (some els), h => by
    simp only [Stmt.clean, Bool.and_eq_true] at h
    simp only [genStmt, Emit.andThen_eq]
    exact Emit.nests_seq (Emit.nests_fmtPrint _ (by decide))
      (Emit.nests_seq (genExpr_nests c cond h.1.1)
        (Emit.nests_wrap ") \x7b\n" "\x7d else " (fun _ => rfl) (fun _ => rfl)
          (genBlock_nests c body h.1.2) (genStmt_nests c els h.2)))
  | .ReturnStmt _ [], _ => by
    simp only [genStmt]
    exact Emit.nests_fmtPrint _ (by decide)
  | .ReturnStmt _ [e], h => by
    simp only [Stmt.clean, Expr.cleanList, Bool.and_true] at h
    simp only [genStmt, Emit.andThen_eq]
    exact Emit.nests_seq (Emit.nests_fmtPrint _ (by decide))
      (Emit.nests_seq (genExpr_nests c e h) (Emit.nests_fmtPrint _ (by decide)))
  | .ReturnStmt _ (_ :: _ :: _), _ => by
    simp only [genStmt]
    exact Emit.nests_parseError _ _ _
  | .AssignStmt [] tok rhs, _ => by
    have heq : genStmt c (Stmt.AssignStmt [] tok rhs) = goPanic := by simp [genStmt]
    rw [heq]
    exact Emit.nests_goPanic
  | .AssignStmt [l] tok [], h => by
    simp only [Stmt.clean, Expr.cleanList, Bool.and_true] at h
    have heq : genStmt c (Stmt.AssignStmt [l] tok []) =
        Emit.seq (genExpr c l) (Emit.seq (fmtPrint " = ") goPanic) := by
      simp [genStmt, Emit.andThen_eq]
    rw [heq]
    exact Emit.nests_seq (genExpr_nests c l h)
      (Emit.nests_seq (Emit.nests_fmtPrint _ (by decide)) Emit.nests_goPanic)
  | .AssignStmt [l] tok [r], h => by
    simp only [Stmt.clean, Expr.cleanList, Bool.and_true, Bool.and_eq_true] at h
    have heq : genStmt c (Stmt.AssignStmt [l] tok [r]) =
        Emit.seq (genExpr c l) (Emit.seq (fmtPrint " = ")
          (Emit.seq (genExpr c r) (fmtPrint ";\n"))) := by
      simp [genStmt, Emit.andThen_eq]
    rw [heq]
    exact Emit.nests_seq (genExpr_nests c l h.1)
      (Emit.nests_seq (Emit.nests_fmtPrint _ (by decide))
        (Emit.nests_seq (genExpr_nests c r h.2) (Emit.nests_fmtPrint _ (by decide))))
  | .AssignStmt [l] tok (r1 :: r2 :: rs), _ => by
    have heq : genStmt c (Stmt.AssignStmt [l] tok (r1 :: r2 :: rs)) =
        parseError c l.pos "multiple assignment not currently supported" := by
      simp [genStmt]
    rw [heq]
    exact Emit.nests_parseError _ _ _
  | .AssignStmt (l1 :: l2 :: ls) tok rhs, _ => by
    have heq : genStmt c (Stmt.AssignStmt (l1 :: l2 :: ls) tok rhs) =
        parseError c l1.pos "multiple assignment not currently supported" := by
      simp [genStmt]
    rw [heq]
    exact Emit.nests_parseError _ _ _
  | .other _, h => by simp [Stmt.clean] at h
theorem genBlock_nests (c : context) :
    ∀ list : List Stmt, Stmt.cleanList list = true → (genBlock c list).Nests
  | [], _ => Emit.nests_skip
  | stmt :: rest, h => by
    simp only [Stmt.cleanList, Bool.and_eq_true] at h
    simp only [genBlock, Emit.andThen_eq]
    exact Emit.nests_seq (genStmt_nests c stmt h.1) (genBlock_nests c rest h.2)
end

theorem collectParams_free (params : List Field) :
    ∀ ps : List (String × String),
      (params.all fun p =>
        braceFree (fmtV (some p.Typ)) && p.Names.all (fun n => braceFree n.Name)) = true →
      collectParams params = some ps →
      ∀ p ∈ ps, braceFree p.1 = true ∧ braceFree p.2 = true := by
  induction params with
  | nil =>
    intro ps _ hps p hp
    simp only [collectParams, Option.some.injEq] at hps
    subst hps
    simp at hp
  | cons field rest ih =>
    intro ps h hps p hp
    simp only [List.all_cons, Bool.and_eq_true, List.all_eq_true] at h
    rcases field with ⟨names, typ⟩
    cases typ with
    | other text => simp [collectParams] at hps
    | Ident typeName =>
      simp only [collectParams, Option.map_eq_some'] at hps
      obtain ⟨more, hmore, hcat⟩ := hps
      subst hcat
      rcases List.mem_append.mp hp with hhead | htail
      · obtain ⟨n, hn, hpair⟩ := List.mem_map.mp hhead
        subst hpair
        exact ⟨by simpa [fmtV] using h.1.1, h.1.2 n hn⟩
      · exact ih more (by simpa [List.all_eq_true] using h.2) hmore p htail

theorem firstResult_free (results : Option (List Field)) (r : String)
    (h : (match results with
      | some (p :: _) => braceFree (fmtV (some p.Typ))
      | _ => true) = true)
    (hr : firstResult results = some r) :
    braceFree (if r = "" then "void" else r) = true := by
  have hvoid : braceFree "void" = true := by decide
  by_cases hempty : r = ""
  · simp [hempty, hvoid]
  · simp only [hempty, if_false]
    cases results with
    | none => simp [firstResult] at hr; exact absurd hr.symm hempty
    | some rs =>
      cases rs with
      | nil => simp [firstResult] at hr; exact absurd hr.symm hempty
      | cons p rest =>
        rcases p with ⟨names, typ⟩
        cases typ with
        | other text => simp [firstResult] at hr
        | Ident typeName =>
          simp only [firstResult, Option.some.injEq] at hr
          subst hr
          simpa [fmtV] using h

theorem mainFunc_nests (c : context) (f : FuncDecl) (h : f.clean = true) :
    (mainFunc c f).Nests := by
  rcases f with ⟨name, params, results, body⟩
  simp only [FuncDecl.clean, FuncDecl.Name, FuncDecl.Params, FuncDecl.Results, FuncDecl.Body,
    Bool.and_eq_true] at h
  simp only [mainFunc, FuncDecl.Name, FuncDecl.Params, FuncDecl.Results, FuncDecl.Body]
  cases hp : collectParams params with
  | none => exact Emit.nests_goPanic
  | some ps =>
    cases hr : firstResult results with
    | none => exact Emit.nests_goPanic
    | some r =>
      have hps := collectParams_free params ps h.1.1.2 hp
      have hrt := firstResult_free results r h.1.2 hr
      have h1 : braceFree " " = true := by decide
      have h2 : braceFree "(" = true := by decide
      have h3 : braceFree "," = true := by decide
      have h4 : braceFree "" = true := by decide
      have hbody : (match body with
          | some stmts => genBlock c stmts
          | none => goPanic).Nests := by
        cases body with
        | none => exact Emit.nests_goPanic
        | some stmts => exact genBlock_nests c stmts h.2
      simp only [Emit.andThen_eq]
      refine Emit.nests_seq (Emit.nests_fmtPrint _ ?_) (Emit.nests_seq
        (Emit.nests_forRangeFrom _ _ (fun i p hpm => Emit.nests_fmtPrint _ ?_) 0)
        (Emit.nests_wrap_last ") \x7b\n" "\x7d\n" (fun _ => rfl) (fun _ => rfl) hbody))
      · simp only [braceFree_append, hrt, h1, h2, h.1.1.1, Bool.and_self]
      · by_cases hi : i = 0 <;>
          simp [braceFree_append, (hps p hpm).1, (hps p hpm).2, h1, h3, h4, hi]

/-- C18, as stated, fails: the body of `func f() { var y int = x }` holds only
a local var declaration and an identifier, without braces in any name, yet the
emitted text is `void f() {` and a newline, with one opening and no closing
brace: the run panics on the initializer. -/
theorem aborted_function_is_unbalanced :
    localIdentFunc.clean = true ∧
      mainFunc sampleContext localIdentFunc = ⟨"void f() \x7b\n", [], some Halt.panicked⟩ ∧
      ¬ braceBalanced (mainFunc sampleContext localIdentFunc).out :=
  ⟨by decide, by decide, fun h => absurd h.1 (by decide)⟩

/-- C18, amended: for a function declaration whose body holds only supported
statement and expression variants and whose names, type names and literal
texts hold no brace, no prefix of the emitted text holds more closing than
opening braces, and when the generation of the function runs to completion the
emitted text (signature line, body, closing line) is brace-balanced.  This
holds for every nesting of blocks, if statements, else blocks and else-if
chains. -/
theorem function_text_braces (c : context) (f : FuncDecl) (h : f.clean = true) :
    (∀ n : Nat, ((mainFunc c f).out.data.take n).count '\x7d' ≤
        ((mainFunc c f).out.data.take n).count '\x7b') ∧
      ((mainFunc c f).halt = none → braceBalanced (mainFunc c f).out) := by
  obtain ⟨k, hk, hk0⟩ := mainFunc_nests c f h 0
  have hcount := braceDepth_counts _ 0 (0 + k) hk
  have hlead : ∀ n : Nat, ((mainFunc c f).out.data.take n).count '\x7d' ≤
      ((mainFunc c f).out.data.take n).count '\x7b' := by
    intro n
    simpa using hcount.2 n
  refine ⟨hlead, fun hrun => ⟨?_, hlead⟩⟩
  have hzero := hk0 hrun
  have hsum := hcount.1
  omega

/-- C18 at a function with an if, an else-if holding a nested block, and an
else block: the run completes and the text is brace-balanced. -/
theorem function_text_braces_witness :
    nestedFunc.clean = true ∧ (mainFunc sampleContext nestedFunc).halt = none ∧
      braceBalanced (mainFunc sampleContext nestedFunc).out ∧
      (mainFunc sampleContext nestedFunc).out.data.count '\x7b' = 5 :=
  ⟨by decide, by decide,
    (function_text_braces sampleContext nestedFunc (by decide)).2 (by decide), by decide⟩

end Glc
